import Mathlib

/-
Shallow embedding of `src/src/os.c` (a minimal preemptive RTOS kernel core:
fixed task table, round-robin scheduler, tick-driven delays).

Modelling conventions:
- Machine words (`uint32_t`) are `Nat`; where overflow matters the code's
  arithmetic is taken modulo `2^32 = 4294967296` explicitly (the SysTick
  decrement of `wait_ticks`).  Addresses and stack offsets are kept in word
  units: `p_stack + stack_size - 16` (C pointer arithmetic on `uint32_t*`)
  becomes `base + S - 16` with `base` the word address of the region.
- The task table `m_task_table.tasks[OS_TASKS_COUNT]` is a `List OsTask` of
  length `N + 1`, where `N` stands for the configuration macro
  `OS_CONFIG_MAX_TASKS` (its concrete value lives in a config header outside
  this repository, so it is a parameter everywhere).
- `memset(&m_task_table, 0, ...)` produces tasks whose `status` field is the
  integer 0, which is none of the values of `os_task_status_t` (those are
  1, 2, 3); the extra constructor `OsTaskStatus.uninit` models that state.
- The unbounded `do { ... } while` scan of `reschedule` is modelled with
  explicit fuel `size - 1`: one unit per loop iteration.  Whenever a slot in
  `1..size-1` is idle the C loop stops within `size - 1` iterations at the
  same slot the fuel-limited scan returns; when no slot is idle the C loop
  never terminates and the scan returns `none`.
- Hardware effects (interrupt masking, NVIC priorities, PSP/CONTROL, the
  PendSV register save/restore) touch no kernel data and are not modelled;
  the PendSV request `SCB->ICSR |= SCB_ICSR_PENDSVSET_Msk` is modelled as the
  `Bool` paired with the scheduler's result.
-/

namespace Os

/-- Task status, from `os_task_status_t` in os.c (`IDLE = 1`, `ACTIVE = 2`,
`WAITING = 3`).  `uninit` models the all-zero bytes left by the `memset` in
`os_init`, a bit pattern that is none of the enum's three values. -/
inductive OsTaskStatus where
  | uninit
  | idle
  | active
  | waiting
deriving DecidableEq, Inhabited

/-- Task control block, from `os_task_t` in os.c.  `sp`, `handler` and
`pParams` are machine words (word-unit addresses) held as naturals. -/
structure OsTask where
  sp : Nat
  handler : Nat
  pParams : Nat
  waitTicks : Nat
  status : OsTaskStatus
deriving DecidableEq

/-- The all-zero TCB bytes left by `memset`: every word 0, `status` the
invalid pattern 0. -/
instance : Inhabited OsTask :=
  ⟨{ sp := 0, handler := 0, pParams := 0, waitTicks := 0, status := OsTaskStatus.uninit }⟩

/-- Kernel lifecycle state, from the anonymous enum behind `m_state`. -/
inductive OsState where
  | default
  | initialized
  | tasksInitialized
  | started
deriving DecidableEq, Inhabited

/-- Error codes of the public API (`os_error_t`, declared in os.h outside
src/; the constructors follow the spec's taxonomy and the names used in
os.c: `OS_ERROR_OK`, `WRONG_STATE`, `NO_MEM`, `INVALID_PARAM`,
`TASK_FINISHED`). -/
inductive OsError where
  | ok
  | wrongState
  | noMem
  | invalidParam
  | taskFinished
deriving DecidableEq, Inhabited

/-- The kernel's mutable globals: `m_task_table` (tasks, `current_task`,
`size`) and `m_state`. -/
structure Kernel where
  tasks : List OsTask
  currentTask : Nat
  size : Nat
  state : OsState
deriving DecidableEq, Inhabited

/-- `m_task_table.tasks[i].status`, with the all-zero TCB as the (never
reached in-bounds) out-of-range default. -/
def statusAt (tasks : List OsTask) (i : Nat) : OsTaskStatus :=
  (tasks.getD i default).status

/-- `m_task_table.tasks[i].wait_ticks`. -/
def waitAt (tasks : List OsTask) (i : Nat) : Nat :=
  (tasks.getD i default).waitTicks

/-- `m_task_table.tasks[i].status = st;` as a pure table update. -/
def setStatus (tasks : List OsTask) (i : Nat) (st : OsTaskStatus) : List OsTask :=
  tasks.set i { tasks.getD i default with status := st }

/-- One step of the do-while scan in `reschedule`:
`current_task++; if (current_task >= size) current_task = 1;`. -/
def nextSlot (size cur : Nat) : Nat :=
  if size ≤ cur + 1 then 1 else cur + 1

/-- The do-while loop of `reschedule` (lines 82-88 of os.c): advance the
cursor, stop at the first slot whose status is `IDLE`.  `fuel` bounds the
number of iterations; `none` models the C loop never finding an idle slot. -/
def scanFrom (tasks : List OsTask) (size : Nat) : Nat → Nat → Option Nat
  | _, 0 => none
  | cur, fuel + 1 =>
    let c := nextSlot size cur
    if statusAt tasks c = OsTaskStatus.idle then some c
    else scanFrom tasks size c fuel

/-- The readiness probe of `reschedule` (lines 67-73 of os.c):
`for (i = 1; i < size; i++) if (tasks[i].status == IDLE) ...`. -/
def anyIdle (tasks : List OsTask) (size : Nat) : Bool :=
  (List.range' 1 (size - 1)).any fun i => decide (statusAt tasks i = OsTaskStatus.idle)

/-- `reschedule` from os.c (lines 50-98).  Returns the updated kernel and
whether PendSV was raised (`os_curr_task != os_next_task`, which for
pointers `&tasks[i]` is exactly inequality of the slot indices); `none`
models the nonterminating case of the do-while loop. -/
def reschedule (k : Kernel) : Option (Kernel × Bool) :=
  let c := k.currentTask
  if c ≠ 0 ∧ statusAt k.tasks c = OsTaskStatus.active then
    -- preempted mid-run: mark the current task idle, then scan onward
    let t1 := setStatus k.tasks c OsTaskStatus.idle
    match scanFrom t1 k.size c (k.size - 1) with
    | none => none
    | some j =>
      some ({ k with tasks := setStatus t1 j OsTaskStatus.active, currentTask := j },
            decide (c ≠ j))
  else if anyIdle k.tasks k.size then
    match scanFrom k.tasks k.size c (k.size - 1) with
    | none => none
    | some j =>
      some ({ k with tasks := setStatus k.tasks j OsTaskStatus.active, currentTask := j },
            decide (c ≠ j))
  else
    -- no ready task: fall back to the idle task in slot 0
    some ({ k with tasks := setStatus k.tasks 0 OsTaskStatus.active, currentTask := 0 },
          decide (c ≠ 0))

/-- `os_task_init` from os.c (lines 120-169), kernel-table side: the state
gate, the capacity check `size >= OS_TASKS_COUNT - 1` (that is `N ≤ size`
with `N = OS_CONFIG_MAX_TASKS`), and the TCB written into slot `size`.
`sp` is `p_stack + stack_size - 16` in word units; `wait_ticks` is not
written by the C code.  The writes into the caller's stack region are
modelled separately by `os_task_init_stack`. -/
def os_task_init (N hdl p base S : Nat) (k : Kernel) : Kernel × OsError :=
  if k.state ≠ OsState.initialized ∧ k.state ≠ OsState.tasksInitialized then
    (k, OsError.wrongState)
  else if N ≤ k.size then (k, OsError.noMem)
  else
    let t := { k.tasks.getD k.size default with
                 sp := base + S - 16, handler := hdl, pParams := p,
                 status := OsTaskStatus.idle }
    ({ k with tasks := k.tasks.set k.size t, size := k.size + 1,
              state := OsState.tasksInitialized },
     OsError.ok)

/-- `os_task_init` from os.c, stack-memory side, in the production
configuration (`OS_CONFIG_DEBUG` not defined): the caller's region of
`stack.length` words gets exactly four words written (lines 143-146) —
xPSR := `0x01000000`, PC := the handler's address, LR := the address of
`task_finished` (`tf`), R0 := the params word.  Every other word is left
untouched. -/
def os_task_init_stack (hdl p tf : Nat) (stack : List Nat) : List Nat :=
  ((((stack.set (stack.length - 1) 0x01000000).set (stack.length - 2) hdl).set
      (stack.length - 3) tf).set (stack.length - 8) p)

/-- Modelled from the spec: `os_idle_task_init` lives in the idle-task module
(os_idle_task.c, not under src/).  Per §4.1 and §6 of the spec it registers
the idle task into slot 0 through the one registration mechanism,
`os_task_init`, with its own statically allocated stack; the idle task's
handler address, params and stack location are irrelevant to every claim and
are taken as 0 (stack of 16 words). -/
def os_idle_task_init (N : Nat) (k : Kernel) : Kernel × OsError :=
  os_task_init N 0 0 0 16 k

/-- `os_init` from os.c (lines 100-118): state gate, `memset` of the table,
transition to `INITIALIZED`, idle-task registration (which itself runs
`os_task_init` and hence leaves `m_state = TASKS_INITIALIZED` on success),
revert to `DEFAULT` on failure, else `current_task = 1`. -/
def os_init (N : Nat) (k : Kernel) : Kernel × OsError :=
  if k.state ≠ OsState.default then (k, OsError.wrongState)
  else
    let k1 : Kernel := { tasks := List.replicate (N + 1) default, currentTask := 0,
                         size := 0, state := OsState.initialized }
    let r := os_idle_task_init N k1
    if r.2 ≠ OsError.ok then ({ r.1 with state := OsState.default }, r.2)
    else ({ r.1 with currentTask := 1 }, OsError.ok)

/-- `os_start` from os.c (lines 171-196): state gate, then
`SysTick_Config(systick_ticks)`; `cfgOk` stands for that hardware call
returning 0.  On success the state becomes `STARTED`; the NVIC priority
setup, the PSP/CONTROL switch and the direct call of the first task's
handler touch no kernel data. -/
def os_start (cfgOk : Bool) (k : Kernel) : Kernel × OsError :=
  if k.state ≠ OsState.tasksInitialized then (k, OsError.wrongState)
  else if cfgOk = false then (k, OsError.invalidParam)
  else ({ k with state := OsState.started }, OsError.ok)

/-- The critical section of `os_delay` (lines 206-210 of os.c): mark the
current task's slot `WAITING` with the given tick count (a `uint32_t`
argument, hence reduced mod `2^32`).  The subsequent `svc 0x01` is modelled
as a separate scheduler invocation, and the busy-wait loop reads state
without changing it. -/
def os_delay_mark (ticks : Nat) (k : Kernel) : Kernel :=
  let t := { k.tasks.getD k.currentTask default with
               status := OsTaskStatus.waiting, waitTicks := ticks % 4294967296 }
  { k with tasks := k.tasks.set k.currentTask t }

/-- The per-task body of the SysTick decrement loop (lines 226-230 of os.c):
a `WAITING` task's `wait_ticks` is decremented as a `uint32_t` (wrapping at
zero), and on reaching 0 the status flips to `IDLE`. -/
def sysTickOne (t : OsTask) : OsTask :=
  if t.status = OsTaskStatus.waiting then
    if (t.waitTicks + (4294967296 - 1)) % 4294967296 = 0 then
      { t with waitTicks := (t.waitTicks + (4294967296 - 1)) % 4294967296, status := OsTaskStatus.idle }
    else { t with waitTicks := (t.waitTicks + (4294967296 - 1)) % 4294967296 }
  else t

/-- The SysTick decrement loop applied to slots `1 <= i < size` (`i` counts
the position of the head of the remaining list as `idx`). -/
def sysTickFrom (size : Nat) : List OsTask → Nat → List OsTask
  | [], _ => []
  | t :: ts, idx =>
    (if 1 ≤ idx ∧ idx < size then sysTickOne t else t) :: sysTickFrom size ts (idx + 1)

/-- The counter-update phase of `SysTick_Handler` (lines 224-231 of os.c). -/
def sysTickDecrement (k : Kernel) : Kernel :=
  { k with tasks := sysTickFrom k.size k.tasks 0 }

/-- `SysTick_Handler` from os.c (lines 219-234): age the waiting tasks, then
invoke the scheduler.  Modelled from the spec for the tail call: the handler
ends in `os_reschedule()`, declared outside src/; per §4.4 and §4.5 it
requests a reschedule through the syscall gateway, so its effect is exactly
one `reschedule` invocation. -/
def SysTick_Handler (k : Kernel) : Option (Kernel × Bool) :=
  reschedule (sysTickDecrement k)

/-- `os_svcall_handler` from os.c (lines 236-259): request code 1 invokes
the scheduler, every other code is a no-op. -/
def os_svcall_handler (svcNum : Nat) (k : Kernel) : Option (Kernel × Bool) :=
  if svcNum = 1 then reschedule k else some (k, false)

/-- The kernel's state at program start: `m_state = OS_STATE_DEFAULT` and the
zero-initialized static `m_task_table`. -/
def initialKernel (N : Nat) : Kernel :=
  { tasks := List.replicate (N + 1) default, currentTask := 0, size := 0,
    state := OsState.default }

/-- One observable transition of the kernel: an API call, a SysTick tick (only
once the timer runs, i.e. in the `STARTED` state), the marking phase of
`os_delay` (its `svc` follows as a separate `svc` step, since SysTick can fire
between the two), or a syscall trap. -/
inductive Step (N : Nat) : Kernel → Kernel → Prop
  | init : ∀ {k k'}, (os_init N k).1 = k' → Step N k k'
  | create : ∀ {k k'} (hdl p base S : Nat), (os_task_init N hdl p base S k).1 = k' →
      Step N k k'
  | start : ∀ {k k'} (cfgOk : Bool), (os_start cfgOk k).1 = k' → Step N k k'
  | tick : ∀ {k k'} (pd : Bool), k.state = OsState.started →
      SysTick_Handler k = some (k', pd) → Step N k k'
  | delay : ∀ {k k'} (ticks : Nat), k.state = OsState.started →
      os_delay_mark ticks k = k' → Step N k k'
  | svc : ∀ {k k'} (n : Nat) (pd : Bool), k.state = OsState.started →
      os_svcall_handler n k = some (k', pd) → Step N k k'

/-- The states the kernel can reach from program start. -/
inductive Reachable (N : Nat) : Kernel → Prop
  | refl : Reachable N (initialKernel N)
  | step : ∀ {k k'}, Reachable N k → Step N k k' → Reachable N k'

/-- `Step`, restricted to executions whose every `os_delay` call passes a
tick count that is nonzero as a `uint32_t`. -/
inductive StepPos (N : Nat) : Kernel → Kernel → Prop
  | init : ∀ {k k'}, (os_init N k).1 = k' → StepPos N k k'
  | create : ∀ {k k'} (hdl p base S : Nat), (os_task_init N hdl p base S k).1 = k' →
      StepPos N k k'
  | start : ∀ {k k'} (cfgOk : Bool), (os_start cfgOk k).1 = k' → StepPos N k k'
  | tick : ∀ {k k'} (pd : Bool), k.state = OsState.started →
      SysTick_Handler k = some (k', pd) → StepPos N k k'
  | delay : ∀ {k k'} (ticks : Nat), ticks % 4294967296 ≠ 0 →
      k.state = OsState.started → os_delay_mark ticks k = k' → StepPos N k k'
  | svc : ∀ {k k'} (n : Nat) (pd : Bool), k.state = OsState.started →
      os_svcall_handler n k = some (k', pd) → StepPos N k k'

/-- The states reachable when `os_delay` is only ever called with a tick
count that is nonzero as a `uint32_t`. -/
inductive ReachablePos (N : Nat) : Kernel → Prop
  | refl : ReachablePos N (initialKernel N)
  | step : ∀ {k k'}, ReachablePos N k → StepPos N k k' → ReachablePos N k'

/-- The kernel state right after a successful `os_init` (idle task registered
in slot 0, `current_task = 1`). -/
def postInit (N : Nat) : Kernel :=
  (os_init N (initialKernel N)).1

/-- Number of `ACTIVE` TCBs among the occupied slots `0..size-1`. -/
def activeCount (k : Kernel) : Nat :=
  ((k.tasks.take k.size).filter fun t => decide (t.status = OsTaskStatus.active)).length

/-- A user slot is ready when its status is `IDLE`, or it is the slot of the
currently running (`ACTIVE`) task, which `reschedule` makes eligible again. -/
abbrev readyTask (k : Kernel) (i : Nat) : Prop :=
  statusAt k.tasks i = OsTaskStatus.idle ∨
    (i = k.currentTask ∧ statusAt k.tasks i = OsTaskStatus.active)

/-- Position of slot `i` in the scheduler's scan order starting just after
slot `c`: the scan visits `c+1, ..., size-1, 1, ..., c`, so slot `i` is the
`dist size c i`-th slot probed. -/
def dist (size c i : Nat) : Nat :=
  if c < i then i - c else i + (size - 1) - c

/-- The round-robin scenario of the fairness claim: at least two occupied
slots, a ready-set `R` of user slots (ready means idle, or active-and-
current), and no `ACTIVE` user slot other than the current one. -/
abbrev RoundState (R : Finset Nat) (k : Kernel) : Prop :=
  2 ≤ k.size ∧ k.currentTask < k.size ∧ k.size ≤ k.tasks.length ∧
  (∀ i, i < k.size → 1 ≤ i → (readyTask k i ↔ i ∈ R)) ∧
  (∀ i, i < k.size → 1 ≤ i → statusAt k.tasks i = OsTaskStatus.active →
     i = k.currentTask) ∧
  (∀ i ∈ R, 1 ≤ i ∧ i < k.size)

/-- The slots selected by `n` consecutive scheduler invocations, oldest
first; `none` when some invocation fails to terminate. -/
def selTrace (k : Kernel) : Nat → Option (List Nat)
  | 0 => some []
  | n + 1 =>
    match reschedule k with
    | none => none
    | some (k', _) => (selTrace k' n).map fun l => k'.currentTask :: l

/-- `selTrace` with `[]` for the nonterminating case. -/
def selTraceD (k : Kernel) (n : Nat) : List Nat :=
  (selTrace k n).getD []

/-- `n` consecutive SysTick periods (`none` when a scheduler invocation
inside one fails to terminate). -/
def tickIter (k : Kernel) : Nat → Option Kernel
  | 0 => some k
  | n + 1 =>
    match SysTick_Handler k with
    | none => none
    | some (k', _) => tickIter k' n

/-- `m` consecutive `os_task_init` calls, the `j`-th with arguments
`args j`, keeping only the kernel state. -/
def createIter (N : Nat) (args : Nat → Nat × Nat × Nat × Nat) : Nat → Kernel → Kernel
  | 0, k => k
  | m + 1, k =>
    let a := args m
    (os_task_init N a.1 a.2.1 a.2.2.1 a.2.2.2 (createIter N args m k)).1

/-- At most one `ACTIVE` TCB among the user slots, and it is the current one:
the inductive shape of the scheduler's activity bookkeeping. -/
abbrev activeInv (k : Kernel) : Prop :=
  ∀ i, i < k.size → 1 ≤ i → statusAt k.tasks i = OsTaskStatus.active → i = k.currentTask

/-- A `WAITING` slot always carries a positive `uint32_t` counter: the
inductive shape of the delay bookkeeping (holds only when `os_delay` is
never passed 0). -/
abbrev waitInv (k : Kernel) : Prop :=
  ∀ i, statusAt k.tasks i = OsTaskStatus.waiting →
    0 < waitAt k.tasks i ∧ waitAt k.tasks i < 4294967296

/-- Concrete run used by examples and counterexamples: `OS_CONFIG_MAX_TASKS = 2`,
one user task registered (handler address 7, params word 5, stack base 100,
16 words), then started. -/
def exampleStarted : Kernel :=
  (os_start true (os_task_init 2 7 5 100 16 (postInit 2)).1).1

/-- `exampleStarted` after its first SysTick period (the user task becomes
the running, `ACTIVE` one). -/
def exampleTick1 : Kernel :=
  ((SysTick_Handler exampleStarted).getD (exampleStarted, false)).1

/-- `exampleTick1` after the running task executes the marking phase of
`os_delay(5)`. -/
def exampleDelay5 : Kernel := os_delay_mark 5 exampleTick1

/-- `exampleTick1` after the running task executes the marking phase of
`os_delay(0)`. -/
def exampleDelay0 : Kernel := os_delay_mark 0 exampleTick1

/-- `exampleDelay0` after the `svc 0x01` that `os_delay` issues next. -/
def exampleDelay0Svc : Kernel :=
  ((os_svcall_handler 1 exampleDelay0).getD (exampleDelay0, false)).1

/-- `exampleDelay0Svc` after one further SysTick period. -/
def exampleDelay0Tick : Kernel :=
  ((SysTick_Handler exampleDelay0Svc).getD (exampleDelay0Svc, false)).1

/-- `exampleDelay5` after two SysTick periods. -/
def exampleDelay5Tick2 : Kernel := (tickIter exampleDelay5 2).getD exampleDelay5

/-- Concrete round-robin scenario: idle task in slot 0, three ready user
tasks in slots 1-3 (slot 1 running), `current_task = 1`, `size = 4`. -/
def exampleRound : Kernel :=
  { tasks :=
      [{ sp := 0, handler := 0, pParams := 0, waitTicks := 0, status := OsTaskStatus.idle },
       { sp := 0, handler := 0, pParams := 0, waitTicks := 0, status := OsTaskStatus.active },
       { sp := 0, handler := 0, pParams := 0, waitTicks := 0, status := OsTaskStatus.idle },
       { sp := 0, handler := 0, pParams := 0, waitTicks := 0, status := OsTaskStatus.idle }],
    currentTask := 1, size := 4, state := OsState.started }

/-! Basic list lemmas used throughout: reading back through `List.set`. -/

theorem getD_set {α : Type} (l : List α) (i j : Nat) (v d : α) :
    (l.set i v).getD j d = if i = j ∧ i < l.length then v else l.getD j d := by
  induction l generalizing i j with
  | nil => simp
  | cons a t ih =>
    cases i with
    | zero => cases j <;> simp
    | succ n =>
      cases j with
      | zero => simp
      | succ m =>
        simp only [List.set_cons_succ, List.getD_cons_succ, ih n m, List.length_cons]
        by_cases h : n = m ∧ n < t.length
        · rw [if_pos h, if_pos ⟨by omega, by omega⟩]
        · rw [if_neg h, if_neg (by omega)]

theorem length_setStatus (tasks : List OsTask) (i : Nat) (st : OsTaskStatus) :
    (setStatus tasks i st).length = tasks.length := by
  simp [setStatus]

theorem statusAt_setStatus (tasks : List OsTask) (i : Nat) (st : OsTaskStatus) (j : Nat) :
    statusAt (setStatus tasks i st) j =
      if i = j ∧ i < tasks.length then st else statusAt tasks j := by
  simp only [statusAt, setStatus, getD_set]
  by_cases h : i = j ∧ i < tasks.length
  · rw [if_pos h, if_pos h]
  · rw [if_neg h, if_neg h]

theorem waitAt_setStatus (tasks : List OsTask) (i : Nat) (st : OsTaskStatus) (j : Nat) :
    waitAt (setStatus tasks i st) j = waitAt tasks j := by
  simp only [waitAt, setStatus, getD_set]
  by_cases h : i = j ∧ i < tasks.length
  · rw [if_pos h]
    obtain ⟨rfl, _⟩ := h
    rfl
  · rw [if_neg h]

/-! Arithmetic of the scan order: `nextSlot` and `dist`. -/

theorem nextSlot_pos (size cur : Nat) (h : 2 ≤ size) :
    1 ≤ nextSlot size cur ∧ nextSlot size cur < size := by
  simp only [nextSlot]; split <;> omega

theorem one_le_dist (s c i : Nat) (h1 : 1 ≤ i) (h2 : i < s) (hc : c < s) :
    1 ≤ dist s c i := by
  simp only [dist]; split <;> omega

theorem dist_le (s c i : Nat) (h1 : 1 ≤ i) (h2 : i < s) (hc : c < s) :
    dist s c i ≤ s - 1 := by
  simp only [dist]; split <;> omega

theorem dist_nextSlot (s c : Nat) (hs : 2 ≤ s) (hc : c < s) :
    dist s c (nextSlot s c) = 1 := by
  simp only [dist, nextSlot]; split_ifs <;> omega

theorem dist_eq_one_iff (s c i : Nat) (hs : 2 ≤ s) (hc : c < s) (h1 : 1 ≤ i) (h2 : i < s) :
    dist s c i = 1 ↔ i = nextSlot s c := by
  simp only [dist, nextSlot]; split_ifs <;> omega

theorem dist_nextSlot_step (s c i : Nat) (hc : c < s) (h1 : 1 ≤ i) (h2 : i < s)
    (hd : 2 ≤ dist s c i) : dist s (nextSlot s c) i = dist s c i - 1 := by
  simp only [dist, nextSlot] at *; split_ifs at * <;> omega

theorem dist_inj (s c i j : Nat) (hc : c < s) (hi1 : 1 ≤ i) (hi2 : i < s)
    (hj1 : 1 ≤ j) (hj2 : j < s) (h : dist s c i = dist s c j) : i = j := by
  simp only [dist] at h; split_ifs at h <;> omega

theorem dist_rotate (s c a x : Nat) (hc : c < s) (ha1 : 1 ≤ a) (ha2 : a < s)
    (hx1 : 1 ≤ x) (hx2 : x < s) (h : dist s c a < dist s c x) :
    dist s a x = dist s c x - dist s c a := by
  simp only [dist] at *; split_ifs at * <;> omega

/-! The do-while scan: soundness, minimality and termination. -/

theorem scanFrom_eq_some (tasks : List OsTask) (s : Nat) :
    ∀ (fuel c j : Nat), scanFrom tasks s c fuel = some j →
      statusAt tasks j = OsTaskStatus.idle ∧ (2 ≤ s → 1 ≤ j ∧ j < s) := by
  intro fuel
  induction fuel with
  | zero => intro c j h; simp [scanFrom] at h
  | succ f ih =>
    intro c j h
    simp only [scanFrom] at h
    split at h
    · rename_i hidle
      cases h
      exact ⟨hidle, fun hs => nextSlot_pos s c hs⟩
    · exact ih (nextSlot s c) j h

/-- The scan started just after `c` returns the idle slot nearest to `c` in
scan order, within `dist s c j` iterations. -/
theorem scanFrom_min (tasks : List OsTask) (s : Nat) (hs : 2 ≤ s) (j : Nat)
    (hj1 : 1 ≤ j) (hj2 : j < s) (hidle : statusAt tasks j = OsTaskStatus.idle) :
    ∀ (fuel c : Nat), c < s → dist s c j ≤ fuel →
      (∀ i, 1 ≤ i → i < s → statusAt tasks i = OsTaskStatus.idle →
        dist s c j ≤ dist s c i) →
      scanFrom tasks s c fuel = some j := by
  intro fuel
  induction fuel with
  | zero =>
    intro c hc hf _
    have := one_le_dist s c j hj1 hj2 hc
    omega
  | succ f ih =>
    intro c hc hf hmin
    obtain ⟨hn1, hn2⟩ := nextSlot_pos s c hs
    by_cases hj : j = nextSlot s c
    · simp only [scanFrom]
      rw [if_pos (hj ▸ hidle), hj]
    · have hd1 : 1 ≤ dist s c j := one_le_dist s c j hj1 hj2 hc
      have hdne : dist s c j ≠ 1 := fun h =>
        hj ((dist_eq_one_iff s c j hs hc hj1 hj2).mp h)
      have hd2 : 2 ≤ dist s c j := by omega
      have hnotidle : statusAt tasks (nextSlot s c) ≠ OsTaskStatus.idle := by
        intro hcon
        have := hmin (nextSlot s c) hn1 hn2 hcon
        rw [dist_nextSlot s c hs hc] at this
        omega
      simp only [scanFrom]
      rw [if_neg hnotidle]
      apply ih (nextSlot s c) hn2
      · rw [dist_nextSlot_step s c j hc hj1 hj2 hd2]; omega
      · intro i hi1 hi2 hidlei
        have hine : i ≠ nextSlot s c := fun h => hnotidle (h ▸ hidlei)
        have hdi1 : 1 ≤ dist s c i := one_le_dist s c i hi1 hi2 hc
        have hdine : dist s c i ≠ 1 := fun h =>
          hine ((dist_eq_one_iff s c i hs hc hi1 hi2).mp h)
        rw [dist_nextSlot_step s c j hc hj1 hj2 hd2,
            dist_nextSlot_step s c i hc hi1 hi2 (by omega)]
        have := hmin i hi1 hi2 hidlei
        omega

/-- Whenever some slot in `1..size-1` is idle, the scan terminates within
`size - 1` iterations, at the nearest idle slot in scan order. -/
theorem scanFrom_exists (tasks : List OsTask) (s : Nat) (hs : 2 ≤ s) (c : Nat) (hc : c < s)
    (h : ∃ i, 1 ≤ i ∧ i < s ∧ statusAt tasks i = OsTaskStatus.idle) :
    ∃ j, scanFrom tasks s c (s - 1) = some j ∧ statusAt tasks j = OsTaskStatus.idle ∧
      1 ≤ j ∧ j < s ∧
      ∀ i, 1 ≤ i → i < s → statusAt tasks i = OsTaskStatus.idle →
        dist s c j ≤ dist s c i := by
  classical
  obtain ⟨i0, hi01, hi02, hi0idle⟩ := h
  have hne : ((Finset.range s).filter fun i =>
      1 ≤ i ∧ statusAt tasks i = OsTaskStatus.idle).Nonempty := by
    exact ⟨i0, by simp [Finset.mem_filter, Finset.mem_range, hi01, hi02, hi0idle]⟩
  obtain ⟨j, hjmem, hjmin⟩ := Finset.exists_min_image _ (dist s c) hne
  simp only [Finset.mem_filter, Finset.mem_range] at hjmem
  obtain ⟨hjs, hj1, hjidle⟩ := hjmem
  refine ⟨j, ?_, hjidle, hj1, hjs, ?_⟩
  · apply scanFrom_min tasks s hs j hj1 hjs hjidle (s - 1) c hc
    · exact dist_le s c j hj1 hjs hc
    · intro i hi1 hi2 hidlei
      exact hjmin i (by simp [Finset.mem_filter, Finset.mem_range, hi1, hi2, hidlei])
  · intro i hi1 hi2 hidlei
    exact hjmin i (by simp [Finset.mem_filter, Finset.mem_range, hi1, hi2, hidlei])

theorem anyIdle_eq_true_iff (tasks : List OsTask) (size : Nat) :
    anyIdle tasks size = true ↔
      ∃ i, 1 ≤ i ∧ i < size ∧ statusAt tasks i = OsTaskStatus.idle := by
  simp only [anyIdle, List.any_eq_true, decide_eq_true_eq]
  constructor
  · rintro ⟨i, hmem, hidle⟩
    rw [List.mem_range'_1] at hmem
    exact ⟨i, hmem.1, by omega, hidle⟩
  · rintro ⟨i, h1, h2, hidle⟩
    exact ⟨i, by rw [List.mem_range'_1]; omega, hidle⟩

theorem statusAt_of_le_length (tasks : List OsTask) (i : Nat) (h : tasks.length ≤ i) :
    statusAt tasks i = OsTaskStatus.uninit := by
  unfold statusAt
  rw [List.getD_eq_default _ _ h]
  rfl

theorem scanFrom_zero (tasks : List OsTask) (s c : Nat) :
    scanFrom tasks s c 0 = none := rfl

/-- Inversion of a terminating `reschedule` invocation: exactly one of the
three exits of the C function was taken. -/
theorem reschedule_inv (k k' : Kernel) (pd : Bool) (h : reschedule k = some (k', pd)) :
    (∃ j, (k.currentTask ≠ 0 ∧ statusAt k.tasks k.currentTask = OsTaskStatus.active) ∧
       scanFrom (setStatus k.tasks k.currentTask OsTaskStatus.idle) k.size k.currentTask
         (k.size - 1) = some j ∧
       k' = { k with tasks := (setStatus (setStatus k.tasks k.currentTask OsTaskStatus.idle)
                j OsTaskStatus.active), currentTask := j } ∧
       pd = decide (k.currentTask ≠ j)) ∨
    (∃ j, ¬(k.currentTask ≠ 0 ∧ statusAt k.tasks k.currentTask = OsTaskStatus.active) ∧
       anyIdle k.tasks k.size = true ∧
       scanFrom k.tasks k.size k.currentTask (k.size - 1) = some j ∧
       k' = { k with tasks := setStatus k.tasks j OsTaskStatus.active, currentTask := j } ∧
       pd = decide (k.currentTask ≠ j)) ∨
    (¬(k.currentTask ≠ 0 ∧ statusAt k.tasks k.currentTask = OsTaskStatus.active) ∧
       anyIdle k.tasks k.size = false ∧
       k' = { k with tasks := setStatus k.tasks 0 OsTaskStatus.active, currentTask := 0 } ∧
       pd = decide (k.currentTask ≠ 0)) := by
  simp only [reschedule] at h
  split at h
  · rename_i hA
    split at h
    · simp at h
    · rename_i j hscan
      simp only [Option.some.injEq, Prod.mk.injEq] at h
      exact Or.inl ⟨j, hA, hscan, h.1.symm, h.2.symm⟩
  · rename_i hA
    split at h
    · rename_i hany
      split at h
      · simp at h
      · rename_i j hscan
        simp only [Option.some.injEq, Prod.mk.injEq] at h
        exact Or.inr (Or.inl ⟨j, hA, hany, hscan, h.1.symm, h.2.symm⟩)
    · rename_i hany
      simp only [Option.some.injEq, Prod.mk.injEq] at h
      exact Or.inr (Or.inr ⟨hA, by simpa using hany, h.1.symm, h.2.symm⟩)

theorem reschedule_frame (k k' : Kernel) (pd : Bool) (h : reschedule k = some (k', pd)) :
    k'.size = k.size ∧ k'.state = k.state ∧ k'.tasks.length = k.tasks.length := by
  rcases reschedule_inv k k' pd h with ⟨j, _, _, hk, _⟩ | ⟨j, _, _, _, hk, _⟩ | ⟨_, _, hk, _⟩ <;>
    subst hk <;> simp [length_setStatus]

theorem reschedule_current_lt (k k' : Kernel) (pd : Bool) (h : reschedule k = some (k', pd))
    (hs : 1 ≤ k.size) : k'.currentTask < k.size := by
  rcases reschedule_inv k k' pd h with ⟨j, _, hscan, hk, _⟩ | ⟨j, _, _, hscan, hk, _⟩ |
    ⟨_, _, hk, _⟩ <;> subst hk
  · have h2 : 2 ≤ k.size := by
      by_contra hcon
      have : k.size - 1 = 0 := by omega
      rw [this, scanFrom_zero] at hscan
      exact absurd hscan (by simp)
    exact ((scanFrom_eq_some _ _ _ _ _ hscan).2 h2).2
  · have h2 : 2 ≤ k.size := by
      by_contra hcon
      have : k.size - 1 = 0 := by omega
      rw [this, scanFrom_zero] at hscan
      exact absurd hscan (by simp)
    exact ((scanFrom_eq_some _ _ _ _ _ hscan).2 h2).2
  · simpa using hs

theorem reschedule_waitAt (k k' : Kernel) (pd : Bool) (h : reschedule k = some (k', pd))
    (i : Nat) : waitAt k'.tasks i = waitAt k.tasks i := by
  rcases reschedule_inv k k' pd h with ⟨j, _, _, hk, _⟩ | ⟨j, _, _, _, hk, _⟩ | ⟨_, _, hk, _⟩ <;>
    subst hk <;> simp [waitAt_setStatus]

theorem reschedule_preserves_waiting (k k' : Kernel) (pd : Bool)
    (h : reschedule k = some (k', pd)) (i : Nat) (h1 : 1 ≤ i)
    (hw : statusAt k.tasks i = OsTaskStatus.waiting) :
    statusAt k'.tasks i = OsTaskStatus.waiting := by
  rcases reschedule_inv k k' pd h with ⟨j, hA, hscan, hk, _⟩ | ⟨j, hA, _, hscan, hk, _⟩ |
    ⟨hA, hany, hk, _⟩ <;> subst hk
  · have hic : i ≠ k.currentTask := fun hcon => by
      rw [hcon] at hw; rw [hw] at hA; exact absurd hA.2 (by simp)
    have ht1 : statusAt (setStatus k.tasks k.currentTask OsTaskStatus.idle) i =
        OsTaskStatus.waiting := by
      rw [statusAt_setStatus, if_neg (by tauto)]
      exact hw
    have hij : i ≠ j := fun hcon => by
      have := (scanFrom_eq_some _ _ _ _ _ hscan).1
      rw [← hcon, ht1] at this
      exact absurd this (by simp)
    show statusAt _ i = _
    rw [statusAt_setStatus, if_neg (by tauto)]
    exact ht1
  · have hij : i ≠ j := fun hcon => by
      have := (scanFrom_eq_some _ _ _ _ _ hscan).1
      rw [← hcon, hw] at this
      exact absurd this (by simp)
    show statusAt _ i = _
    rw [statusAt_setStatus, if_neg (by tauto)]
    exact hw
  · show statusAt _ i = _
    rw [statusAt_setStatus, if_neg (by omega)]
    exact hw

theorem reschedule_not_waiting (k k' : Kernel) (pd : Bool)
    (h : reschedule k = some (k', pd)) (i : Nat)
    (hnw : statusAt k.tasks i ≠ OsTaskStatus.waiting) :
    statusAt k'.tasks i ≠ OsTaskStatus.waiting := by
  rcases reschedule_inv k k' pd h with ⟨j, hA, hscan, hk, _⟩ | ⟨j, hA, _, hscan, hk, _⟩ |
    ⟨hA, hany, hk, _⟩ <;> subst hk
  · show statusAt (setStatus (setStatus k.tasks k.currentTask OsTaskStatus.idle) j
      OsTaskStatus.active) i ≠ _
    rw [statusAt_setStatus]
    split_ifs with h1
    · simp
    · rw [statusAt_setStatus]
      split_ifs with h2
      · simp
      · exact hnw
  · show statusAt (setStatus k.tasks j OsTaskStatus.active) i ≠ _
    rw [statusAt_setStatus]
    split_ifs with h1
    · simp
    · exact hnw
  · show statusAt (setStatus k.tasks 0 OsTaskStatus.active) i ≠ _
    rw [statusAt_setStatus]
    split_ifs with h1
    · simp
    · exact hnw

theorem reschedule_activeInv (k k' : Kernel) (pd : Bool)
    (h : reschedule k = some (k', pd)) (hA : activeInv k) : activeInv k' := by
  intro i hi hi1 hact
  rcases reschedule_inv k k' pd h with ⟨j, hB, hscan, hk, _⟩ | ⟨j, hB, _, hscan, hk, _⟩ |
    ⟨hB, hany, hk, _⟩ <;> subst hk
  · show i = j
    have hi' : i < k.size := hi
    have hact' : statusAt (setStatus (setStatus k.tasks k.currentTask OsTaskStatus.idle) j
        OsTaskStatus.active) i = OsTaskStatus.active := hact
    by_cases hij : j = i
    · exact hij.symm
    · rw [statusAt_setStatus, if_neg (by tauto)] at hact'
      by_cases hic : k.currentTask = i
      · rw [statusAt_setStatus] at hact'
        split_ifs at hact' with hrange
        have hclen : k.currentTask < k.tasks.length := by
          by_contra hcon
          rw [statusAt_of_le_length _ _ (by omega)] at hB
          exact absurd hB.2 (by decide)
        exact absurd ⟨hic, hclen⟩ hrange
      · rw [statusAt_setStatus, if_neg (by tauto)] at hact'
        exact absurd (hA i hi' hi1 hact').symm hic
  · show i = j
    have hi' : i < k.size := hi
    have hact' : statusAt (setStatus k.tasks j OsTaskStatus.active) i =
        OsTaskStatus.active := hact
    by_cases hij : j = i
    · exact hij.symm
    · rw [statusAt_setStatus, if_neg (by tauto)] at hact'
      have hic := hA i hi' hi1 hact'
      rw [hic] at hact'
      exact absurd ⟨by omega, hact'⟩ hB
  · show i = 0
    have hi' : i < k.size := hi
    have hact' : statusAt (setStatus k.tasks 0 OsTaskStatus.active) i =
        OsTaskStatus.active := hact
    rw [statusAt_setStatus, if_neg (by omega)] at hact'
    have hic := hA i hi' hi1 hact'
    rw [hic] at hact'
    exact absurd ⟨by omega, hact'⟩ hB

/-! The round-robin fairness machinery: a single invocation selects the
nearest ready slot past the current one and re-establishes the scenario. -/

theorem dist_self (s a : Nat) (ha2 : a < s) : dist s a a = s - 1 := by
  simp only [dist]; split <;> omega

theorem dist_lt_of_rotate (s c a x y : Nat) (hc : c < s)
    (ha1 : 1 ≤ a) (ha2 : a < s) (hx1 : 1 ≤ x) (hx2 : x < s) (hy1 : 1 ≤ y) (hy2 : y < s)
    (hax : dist s c a < dist s c x) (hay : dist s c a < dist s c y)
    (h : dist s a x < dist s a y) : dist s c x < dist s c y := by
  rw [dist_rotate s c a x hc ha1 ha2 hx1 hx2 hax,
      dist_rotate s c a y hc ha1 ha2 hy1 hy2 hay] at h
  omega

theorem reschedule_eq_of_active (k : Kernel)
    (hA : k.currentTask ≠ 0 ∧ statusAt k.tasks k.currentTask = OsTaskStatus.active)
    (j : Nat)
    (hscan : scanFrom (setStatus k.tasks k.currentTask OsTaskStatus.idle) k.size
      k.currentTask (k.size - 1) = some j) :
    reschedule k =
      some ({ k with tasks := (setStatus (setStatus k.tasks k.currentTask OsTaskStatus.idle) j OsTaskStatus.active), currentTask := j },
        decide (k.currentTask ≠ j)) := by
  simp only [reschedule, if_pos hA, hscan]

theorem reschedule_eq_of_scan (k : Kernel)
    (hA : ¬(k.currentTask ≠ 0 ∧ statusAt k.tasks k.currentTask = OsTaskStatus.active))
    (hany : anyIdle k.tasks k.size = true) (j : Nat)
    (hscan : scanFrom k.tasks k.size k.currentTask (k.size - 1) = some j) :
    reschedule k =
      some ({ k with tasks := (setStatus k.tasks j OsTaskStatus.active), currentTask := j },
        decide (k.currentTask ≠ j)) := by
  simp only [reschedule, if_neg hA, hany, if_true, hscan]

theorem reschedule_eq_of_no_ready (k : Kernel)
    (hA : ¬(k.currentTask ≠ 0 ∧ statusAt k.tasks k.currentTask = OsTaskStatus.active))
    (hany : anyIdle k.tasks k.size = false) :
    reschedule k =
      some ({ k with tasks := (setStatus k.tasks 0 OsTaskStatus.active), currentTask := 0 },
        decide (k.currentTask ≠ 0)) := by
  simp only [reschedule, if_neg hA, hany, Bool.false_eq_true, if_false]

theorem round_after (R : Finset Nat) (k : Kernel) (tX : List OsTask) (a : Nat)
    (hs : 2 ≤ k.size) (hlenX : tX.length = k.tasks.length)
    (hlen : k.size ≤ k.tasks.length)
    (hiff : ∀ i, i < k.size → 1 ≤ i → (statusAt tX i = OsTaskStatus.idle ↔ i ∈ R))
    (hnoact : ∀ i, i < k.size → 1 ≤ i → statusAt tX i ≠ OsTaskStatus.active)
    (haR : a ∈ R) (ha1 : 1 ≤ a) (ha2 : a < k.size)
    (hbound : ∀ i ∈ R, 1 ≤ i ∧ i < k.size) :
    RoundState R { k with tasks := (setStatus tX a OsTaskStatus.active), currentTask := a } := by
  have halen : a < tX.length := by omega
  refine ⟨hs, ha2, ?_, ?_, ?_, hbound⟩
  · show k.size ≤ (setStatus tX a OsTaskStatus.active).length
    rw [length_setStatus, hlenX]
    exact hlen
  · intro i hi hi1
    show statusAt (setStatus tX a OsTaskStatus.active) i = OsTaskStatus.idle ∨
      (i = a ∧ statusAt (setStatus tX a OsTaskStatus.active) i = OsTaskStatus.active) ↔ i ∈ R
    by_cases hia : a = i
    · subst hia
      rw [statusAt_setStatus, if_pos ⟨rfl, halen⟩]
      simp [haR]
    · rw [statusAt_setStatus, if_neg (by tauto)]
      constructor
      · rintro (hidle | ⟨hcon, _⟩)
        · exact (hiff i hi hi1).mp hidle
        · exact absurd hcon.symm hia
      · intro hmem
        exact Or.inl ((hiff i hi hi1).mpr hmem)
  · intro i hi hi1 hacti
    show i = a
    by_cases hia : a = i
    · exact hia.symm
    · have : statusAt (setStatus tX a OsTaskStatus.active) i = statusAt tX i := by
        rw [statusAt_setStatus, if_neg (by tauto)]
      rw [this] at hacti
      exact absurd hacti (hnoact i hi hi1)

theorem reschedule_round (R : Finset Nat) (k : Kernel) (h : RoundState R k)
    (hne : R.Nonempty) :
    ∃ k' pd, reschedule k = some (k', pd) ∧ k'.currentTask ∈ R ∧
      (∀ i ∈ R, dist k.size k.currentTask k'.currentTask ≤ dist k.size k.currentTask i) ∧
      RoundState R k' ∧ k'.size = k.size ∧ k'.currentTask = k'.currentTask := by
  obtain ⟨hs, hc, hlen, hready, hact, hbound⟩ := h
  by_cases hA : k.currentTask ≠ 0 ∧ statusAt k.tasks k.currentTask = OsTaskStatus.active
  · have hclen : k.currentTask < k.tasks.length := by omega
    have hcR : k.currentTask ∈ R :=
      (hready k.currentTask hc (by omega)).mp (Or.inr ⟨rfl, hA.2⟩)
    have hiff : ∀ i, i < k.size → 1 ≤ i →
        (statusAt (setStatus k.tasks k.currentTask OsTaskStatus.idle) i =
          OsTaskStatus.idle ↔ i ∈ R) := by
      intro i hi hi1
      by_cases hci : k.currentTask = i
      · subst hci
        rw [statusAt_setStatus, if_pos ⟨rfl, hclen⟩]
        simp [hcR]
      · rw [statusAt_setStatus, if_neg (by tauto)]
        rw [← hready i hi hi1]
        constructor
        · exact fun hidle => Or.inl hidle
        · rintro (hidle | ⟨hcon, _⟩)
          · exact hidle
          · exact absurd hcon.symm hci
    have hnoact : ∀ i, i < k.size → 1 ≤ i →
        statusAt (setStatus k.tasks k.currentTask OsTaskStatus.idle) i ≠
          OsTaskStatus.active := by
      intro i hi hi1
      by_cases hci : k.currentTask = i
      · subst hci
        rw [statusAt_setStatus, if_pos ⟨rfl, hclen⟩]
        decide
      · rw [statusAt_setStatus, if_neg (by tauto)]
        intro hcon
        exact hci (hact i hi hi1 hcon).symm
    have hex : ∃ i, 1 ≤ i ∧ i < k.size ∧
        statusAt (setStatus k.tasks k.currentTask OsTaskStatus.idle) i =
          OsTaskStatus.idle := by
      refine ⟨k.currentTask, by omega, hc, ?_⟩
      rw [statusAt_setStatus, if_pos ⟨rfl, hclen⟩]
    obtain ⟨j, hscan, hjidle, hj1, hj2, hjmin⟩ :=
      scanFrom_exists (setStatus k.tasks k.currentTask OsTaskStatus.idle) k.size hs
        k.currentTask hc hex
    have heval := reschedule_eq_of_active k hA j hscan
    have hjR : j ∈ R := (hiff j hj2 hj1).mp hjidle
    refine ⟨_, _, heval, hjR, ?_, ?_, rfl, rfl⟩
    · intro i hiR
      obtain ⟨hi1, hi2⟩ := hbound i hiR
      exact hjmin i hi1 hi2 ((hiff i hi2 hi1).mpr hiR)
    · exact round_after R k _ j hs (length_setStatus _ _ _) hlen hiff hnoact hjR hj1 hj2
        hbound
  · have hiff : ∀ i, i < k.size → 1 ≤ i →
        (statusAt k.tasks i = OsTaskStatus.idle ↔ i ∈ R) := by
      intro i hi hi1
      rw [← hready i hi hi1]
      constructor
      · exact fun hidle => Or.inl hidle
      · rintro (hidle | ⟨hci, hacti⟩)
        · exact hidle
        · exact absurd ⟨by omega, hci ▸ hacti⟩ hA
    have hnoact : ∀ i, i < k.size → 1 ≤ i →
        statusAt k.tasks i ≠ OsTaskStatus.active := by
      intro i hi hi1 hcon
      have hci := hact i hi hi1 hcon
      exact hA ⟨by omega, hci ▸ hcon⟩
    have hex : ∃ i, 1 ≤ i ∧ i < k.size ∧ statusAt k.tasks i = OsTaskStatus.idle := by
      obtain ⟨a, haR⟩ := hne
      obtain ⟨ha1, ha2⟩ := hbound a haR
      exact ⟨a, ha1, ha2, (hiff a ha2 ha1).mpr haR⟩
    have hany : anyIdle k.tasks k.size = true := (anyIdle_eq_true_iff _ _).mpr hex
    obtain ⟨j, hscan, hjidle, hj1, hj2, hjmin⟩ :=
      scanFrom_exists k.tasks k.size hs k.currentTask hc hex
    have heval := reschedule_eq_of_scan k hA hany j hscan
    have hjR : j ∈ R := (hiff j hj2 hj1).mp hjidle
    refine ⟨_, _, heval, hjR, ?_, ?_, rfl, rfl⟩
    · intro i hiR
      obtain ⟨hi1, hi2⟩ := hbound i hiR
      exact hjmin i hi1 hi2 ((hiff i hi2 hi1).mpr hiR)
    · exact round_after R k _ j hs rfl hlen hiff hnoact hjR hj1 hj2 hbound

/-- The core of the fairness claim: `n ≤ |R|` consecutive scheduler
invocations pick `n` distinct ready slots, in scan order past the original
current slot, and they are the `n` nearest ones. -/
theorem selTrace_round (R : Finset Nat) :
    ∀ (n : Nat) (k : Kernel), RoundState R k → n ≤ R.card →
      ∃ L, selTrace k n = some L ∧ L.length = n ∧ (∀ x ∈ L, x ∈ R) ∧
        List.Pairwise
          (fun a b => dist k.size k.currentTask a < dist k.size k.currentTask b) L ∧
        (∀ x ∈ R, x ∉ L → ∀ y ∈ L,
          dist k.size k.currentTask y < dist k.size k.currentTask x) := by
  intro n
  induction n with
  | zero =>
    intro k hR hn
    exact ⟨[], rfl, rfl, by simp, by simp, by simp⟩
  | succ m ih =>
    intro k hR hn
    obtain ⟨hs, hc, hlen, hready, hact, hbound⟩ := hR
    have hR' : RoundState R k := ⟨hs, hc, hlen, hready, hact, hbound⟩
    have hne : R.Nonempty := Finset.card_pos.mp (by omega)
    obtain ⟨k1, pd, heval, haR, hamin, hR1, hsz, -⟩ := reschedule_round R k hR' hne
    obtain ⟨L1, htrace1, hlen1, hmem1, hpw1, hlast1⟩ := ih k1 hR1 (by omega)
    obtain ⟨ha1, ha2⟩ := hbound k1.currentTask haR
    have hstrict : ∀ x ∈ R, x ≠ k1.currentTask →
        dist k.size k.currentTask k1.currentTask < dist k.size k.currentTask x := by
      intro x hx hxa
      obtain ⟨hx1, hx2⟩ := hbound x hx
      rcases Nat.lt_or_ge (dist k.size k.currentTask k1.currentTask)
        (dist k.size k.currentTask x) with hlt | hge
      · exact hlt
      · have heq : dist k.size k.currentTask k1.currentTask =
            dist k.size k.currentTask x := by
          have := hamin x hx
          omega
        exact absurd (dist_inj k.size k.currentTask k1.currentTask x hc ha1 ha2
          hx1 hx2 heq).symm hxa
    have hanotin : k1.currentTask ∉ L1 := by
      intro hmem
      have hcard : L1.toFinset.card < R.card := by
        have h1 : L1.toFinset.card ≤ L1.length := L1.toFinset_card_le
        omega
      have hexx : ∃ x ∈ R, x ∉ L1 := by
        by_contra hcon
        push_neg at hcon
        have hsub : R ⊆ L1.toFinset := by
          intro x hx
          exact List.mem_toFinset.mpr (hcon x hx)
        have := Finset.card_le_card hsub
        omega
      obtain ⟨x, hxR, hxnot⟩ := hexx
      have := hlast1 x hxR hxnot k1.currentTask hmem
      rw [hsz] at this
      rw [dist_self k.size k1.currentTask ha2] at this
      obtain ⟨hx1, hx2⟩ := hbound x hxR
      have := dist_le k.size k1.currentTask x hx1 hx2 ha2
      omega
    refine ⟨k1.currentTask :: L1, ?_, by simp [hlen1], ?_, ?_, ?_⟩
    · rw [selTrace, heval]
      show Option.map (fun l => k1.currentTask :: l) (selTrace k1 m) = _
      rw [htrace1]
      rfl
    · intro x hx
      rcases List.mem_cons.mp hx with hx | hx
      · exact hx ▸ haR
      · exact hmem1 x hx
    · constructor
      · intro y hy
        exact hstrict y (hmem1 y hy) (fun hcon => hanotin (hcon ▸ hy))
      · -- rotate the tail's pairwise order from base `k1.currentTask` to base `c`
        have hconv : ∀ x ∈ L1, ∀ y ∈ L1,
            dist k.size k1.currentTask x < dist k.size k1.currentTask y →
            dist k.size k.currentTask x < dist k.size k.currentTask y := by
          intro x hx y hy hxy
          have hxR := hmem1 x hx
          have hyR := hmem1 y hy
          obtain ⟨hx1, hx2⟩ := hbound x hxR
          obtain ⟨hy1, hy2⟩ := hbound y hyR
          exact dist_lt_of_rotate k.size k.currentTask k1.currentTask x y hc ha1 ha2
            hx1 hx2 hy1 hy2
            (hstrict x hxR (fun hcon => hanotin (hcon ▸ hx)))
            (hstrict y hyR (fun hcon => hanotin (hcon ▸ hy))) hxy
        have hpw1' : List.Pairwise
            (fun a b => dist k.size k1.currentTask a < dist k.size k1.currentTask b)
            L1 := by
          rw [hsz] at hpw1
          exact hpw1
        exact List.Pairwise.imp_of_mem (fun hx hy hxy => hconv _ hx _ hy hxy) hpw1'
    · intro x hxR hxnot y hy
      rcases List.mem_cons.mp hy with hy | hy
      · subst hy
        exact hstrict x hxR (fun hcon => hxnot (hcon ▸ List.mem_cons_self _ _))
      · have hxnot1 : x ∉ L1 := fun hcon => hxnot (List.mem_cons_of_mem _ hcon)
        have hxa : x ≠ k1.currentTask := fun hcon =>
          hxnot (hcon ▸ List.mem_cons_self _ _)
        have h1 := hlast1 x hxR hxnot1 y hy
        rw [hsz] at h1
        have hyR := hmem1 y hy
        obtain ⟨hx1, hx2⟩ := hbound x hxR
        obtain ⟨hy1, hy2⟩ := hbound y hyR
        exact dist_lt_of_rotate k.size k.currentTask k1.currentTask y x hc ha1 ha2
          hy1 hy2 hx1 hx2
          (hstrict y hyR (fun hcon => hanotin (hcon ▸ hy)))
          (hstrict x hxR hxa) h1

/-! The tick service: pointwise characterization of the decrement loop. -/

theorem length_sysTickFrom (size : Nat) :
    ∀ (l : List OsTask) (idx : Nat), (sysTickFrom size l idx).length = l.length := by
  intro l
  induction l with
  | nil => intro idx; rfl
  | cons t ts ih => intro idx; simp [sysTickFrom, ih]

theorem getD_sysTickFrom (size : Nat) :
    ∀ (l : List OsTask) (idx j : Nat),
      (sysTickFrom size l idx).getD j default =
        if j < l.length ∧ 1 ≤ idx + j ∧ idx + j < size then sysTickOne (l.getD j default)
        else l.getD j default := by
  intro l
  induction l with
  | nil => intro idx j; simp [sysTickFrom]
  | cons t ts ih =>
    intro idx j
    cases j with
    | zero =>
      simp only [sysTickFrom, List.getD_cons_zero, List.length_cons, Nat.add_zero]
      by_cases h : 1 ≤ idx ∧ idx < size
      · rw [if_pos h, if_pos ⟨by omega, h⟩]
      · rw [if_neg h, if_neg (by omega)]
    | succ m =>
      simp only [sysTickFrom, List.getD_cons_succ, List.length_cons]
      rw [ih (idx + 1) m]
      by_cases h : m < ts.length ∧ 1 ≤ idx + 1 + m ∧ idx + 1 + m < size
      · rw [if_pos h, if_pos (by omega)]
      · rw [if_neg h, if_neg (by omega)]

theorem sysTickDecrement_getD (k : Kernel) (j : Nat) :
    (sysTickDecrement k).tasks.getD j default =
      if j < k.tasks.length ∧ 1 ≤ j ∧ j < k.size then sysTickOne (k.tasks.getD j default)
      else k.tasks.getD j default := by
  show (sysTickFrom k.size k.tasks 0).getD j default = _
  rw [getD_sysTickFrom]
  simp only [Nat.zero_add]

theorem sysTickDecrement_frame (k : Kernel) :
    (sysTickDecrement k).size = k.size ∧ (sysTickDecrement k).currentTask = k.currentTask ∧
      (sysTickDecrement k).state = k.state ∧
      (sysTickDecrement k).tasks.length = k.tasks.length := by
  refine ⟨rfl, rfl, rfl, ?_⟩
  show (sysTickFrom k.size k.tasks 0).length = _
  rw [length_sysTickFrom]

theorem sysTickOne_of_not_waiting (t : OsTask) (h : t.status ≠ OsTaskStatus.waiting) :
    sysTickOne t = t := by
  simp only [sysTickOne, if_neg h]

/-- The exact effect of one tick on a waiting task whose counter is a
positive `uint32_t` value: the decrement is by exactly one (no wrap), and
the status flips to `IDLE` exactly when the counter reaches 0. -/
theorem sysTickOne_spec (t : OsTask) (h : t.status = OsTaskStatus.waiting)
    (h1 : 0 < t.waitTicks) (h2 : t.waitTicks < 4294967296) :
    (sysTickOne t).waitTicks = t.waitTicks - 1 ∧
      ((sysTickOne t).status = OsTaskStatus.idle ↔ t.waitTicks = 1) ∧
      ((sysTickOne t).status = OsTaskStatus.waiting ↔ 1 < t.waitTicks) := by
  have hw : (t.waitTicks + (4294967296 - 1)) % 4294967296 = t.waitTicks - 1 := by
    omega
  simp only [sysTickOne, if_pos h, hw]
  by_cases h0 : t.waitTicks - 1 = 0
  · rw [if_pos h0]
    refine ⟨rfl, ?_, ?_⟩
    · simp only [true_iff]
      omega
    · show OsTaskStatus.idle = OsTaskStatus.waiting ↔ _
      constructor
      · intro hcon; exact absurd hcon (by decide)
      · intro hcon; omega
  · rw [if_neg h0]
    refine ⟨rfl, ?_, ?_⟩
    · show t.status = OsTaskStatus.idle ↔ _
      rw [h]
      constructor
      · intro hcon; exact absurd hcon (by decide)
      · intro hcon; omega
    · show t.status = OsTaskStatus.waiting ↔ _
      rw [h]
      simp only [true_iff]
      omega

/-! Shapes of the lifecycle operations, used by the reachability
inductions. -/

theorem getD_replicate_default (n i : Nat) :
    (List.replicate n (default : OsTask)).getD i default = default := by
  induction n generalizing i with
  | zero => simp
  | succ m ih => cases i <;> simp [List.replicate, ih]

theorem os_task_init_ok (N hdl p base S : Nat) (k : Kernel)
    (hst : k.state = OsState.initialized ∨ k.state = OsState.tasksInitialized)
    (hsz : k.size < N) :
    (os_task_init N hdl p base S k).2 = OsError.ok ∧
    (os_task_init N hdl p base S k).1.state = OsState.tasksInitialized ∧
    (os_task_init N hdl p base S k).1.size = k.size + 1 ∧
    (os_task_init N hdl p base S k).1.tasks.length = k.tasks.length ∧
    (os_task_init N hdl p base S k).1.currentTask = k.currentTask := by
  have hgate : ¬(k.state ≠ OsState.initialized ∧ k.state ≠ OsState.tasksInitialized) := by
    rcases hst with h | h <;> simp [h]
  simp only [os_task_init, if_neg hgate, if_neg (by omega : ¬N ≤ k.size)]
  simp

theorem os_task_init_noMem (N hdl p base S : Nat) (k : Kernel)
    (hst : k.state = OsState.initialized ∨ k.state = OsState.tasksInitialized)
    (hsz : N ≤ k.size) :
    os_task_init N hdl p base S k = (k, OsError.noMem) := by
  have hgate : ¬(k.state ≠ OsState.initialized ∧ k.state ≠ OsState.tasksInitialized) := by
    rcases hst with h | h <;> simp [h]
  simp only [os_task_init, if_neg hgate, if_pos hsz]

theorem os_task_init_wrongState (N hdl p base S : Nat) (k : Kernel)
    (hst : k.state ≠ OsState.initialized ∧ k.state ≠ OsState.tasksInitialized) :
    os_task_init N hdl p base S k = (k, OsError.wrongState) := by
  simp only [os_task_init, if_pos hst]

/-- The slot written by a successful `os_task_init`, and the untouched
slots. -/
theorem os_task_init_tasks (N hdl p base S : Nat) (k : Kernel)
    (hst : k.state = OsState.initialized ∨ k.state = OsState.tasksInitialized)
    (hsz : k.size < N) :
    (os_task_init N hdl p base S k).1.tasks =
      k.tasks.set k.size { k.tasks.getD k.size default with
        sp := base + S - 16, handler := hdl, pParams := p,
        status := OsTaskStatus.idle } := by
  have hgate : ¬(k.state ≠ OsState.initialized ∧ k.state ≠ OsState.tasksInitialized) := by
    rcases hst with h | h <;> simp [h]
  simp only [os_task_init, if_neg hgate, if_neg (by omega : ¬N ≤ k.size)]

/-- `os_init` either rejects (state unchanged), fails idle-task registration
(reverting to `DEFAULT`, empty table), or succeeds with the idle task in
slot 0, `size = 1`, `current_task = 1` and state `TASKS_INITIALIZED`. -/
theorem os_init_shape (N : Nat) (k : Kernel) :
    (os_init N k).1 = k ∨
    (((os_init N k).1.state = OsState.default ∨
        (os_init N k).1.state = OsState.tasksInitialized) ∧
      ((os_init N k).1.state = OsState.tasksInitialized →
        (os_init N k).1.currentTask = 1 ∧ (os_init N k).1.size = 1) ∧
      ((os_init N k).1.state = OsState.default →
        (os_init N k).1.currentTask = 0 ∧ (os_init N k).1.size = 0) ∧
      (∀ i, statusAt (os_init N k).1.tasks i = OsTaskStatus.idle ∨
        statusAt (os_init N k).1.tasks i = OsTaskStatus.uninit)) := by
  by_cases hst : k.state ≠ OsState.default
  · left
    simp only [os_init, if_pos hst]
  · right
    rw [not_not] at hst
    set k1 : Kernel := { tasks := List.replicate (N + 1) default, currentTask := 0, size := 0, state := OsState.initialized } with hk1
    have hunf : os_init N k =
        (if (os_task_init N 0 0 0 16 k1).2 ≠ OsError.ok then
          ({ (os_task_init N 0 0 0 16 k1).1 with state := OsState.default },
            (os_task_init N 0 0 0 16 k1).2)
        else ({ (os_task_init N 0 0 0 16 k1).1 with currentTask := 1 }, OsError.ok)) := by
      simp only [os_init, if_neg (show ¬k.state ≠ OsState.default by simp [hst])]
      rfl
    by_cases hN : 0 < N
    · have hok := os_task_init_ok N 0 0 0 16 k1 (Or.inl rfl) (by simpa using hN)
      have htasks := os_task_init_tasks N 0 0 0 16 k1 (Or.inl rfl) (by simpa using hN)
      rw [hunf, if_neg (by simp [hok.1])]
      refine ⟨Or.inr hok.2.1, fun _ => ⟨rfl, hok.2.2.1⟩, ?_, ?_⟩
      · intro hcon
        rw [hok.2.1] at hcon
        exact absurd hcon (by decide)
      · intro i
        show statusAt (os_task_init N 0 0 0 16 k1).1.tasks i = _ ∨
          statusAt (os_task_init N 0 0 0 16 k1).1.tasks i = _
        rw [htasks]
        show statusAt (List.set k1.tasks 0 _) i = _ ∨ statusAt (List.set k1.tasks 0 _) i = _
        unfold statusAt
        rw [getD_set]
        split_ifs with hcase
        · left; rfl
        · right
          show (k1.tasks.getD i default).status = _
          rw [show k1.tasks = List.replicate (N + 1) default from rfl,
            getD_replicate_default]
          rfl
    · have hnm := os_task_init_noMem N 0 0 0 16 k1 (Or.inl rfl) (by omega)
      have hcond : (os_task_init N 0 0 0 16 k1).2 ≠ OsError.ok := by
        simp [hnm]
      rw [hunf, if_pos hcond, hnm]
      refine ⟨Or.inl rfl, ?_, fun _ => ⟨rfl, rfl⟩, ?_⟩
      · intro hcon
        simp at hcon
      · intro i
        right
        show statusAt k1.tasks i = _
        unfold statusAt
        rw [show k1.tasks = List.replicate (N + 1) default from rfl,
          getD_replicate_default]
        rfl

theorem os_start_shape (cfgOk : Bool) (k : Kernel) :
    (os_start cfgOk k).1 = k ∨
    ((os_start cfgOk k).1 = { k with state := OsState.started } ∧
      k.state = OsState.tasksInitialized) := by
  by_cases hst : k.state ≠ OsState.tasksInitialized
  · left; simp only [os_start, if_pos hst]
  · by_cases hcfg : cfgOk = false
    · left; simp only [os_start, if_neg hst, if_pos hcfg]
    · right
      rw [not_not] at hst
      refine ⟨?_, hst⟩
      simp only [os_start,
        if_neg (show ¬k.state ≠ OsState.tasksInitialized by simp [hst]), if_neg hcfg]

theorem os_svcall_handler_inv (n : Nat) (k k' : Kernel) (pd : Bool)
    (h : os_svcall_handler n k = some (k', pd)) :
    reschedule k = some (k', pd) ∨ k' = k := by
  by_cases hn : n = 1
  · left
    simpa only [os_svcall_handler, if_pos hn] using h
  · right
    simp only [os_svcall_handler, if_neg hn, Option.some.injEq, Prod.mk.injEq] at h
    exact h.1.symm

theorem postInit_spec (N : Nat) (hN : 1 ≤ N) :
    (postInit N).state = OsState.tasksInitialized ∧ (postInit N).size = 1 ∧
      (postInit N).currentTask = 1 ∧ (postInit N).tasks.length = N + 1 := by
  set k1 : Kernel := { tasks := List.replicate (N + 1) default, currentTask := 0, size := 0, state := OsState.initialized } with hk1
  have hok := os_task_init_ok N 0 0 0 16 k1 (Or.inl rfl) (by simpa using hN)
  have hunf : os_init N (initialKernel N) =
      (if (os_task_init N 0 0 0 16 k1).2 ≠ OsError.ok then
        ({ (os_task_init N 0 0 0 16 k1).1 with state := OsState.default },
          (os_task_init N 0 0 0 16 k1).2)
      else ({ (os_task_init N 0 0 0 16 k1).1 with currentTask := 1 }, OsError.ok)) := by
    simp only [os_init,
      if_neg (show ¬(initialKernel N).state ≠ OsState.default by simp [initialKernel])]
    rfl
  have hpi : postInit N = { (os_task_init N 0 0 0 16 k1).1 with currentTask := 1 } := by
    show (os_init N (initialKernel N)).1 = _
    rw [hunf,
      if_neg (show ¬(os_task_init N 0 0 0 16 k1).2 ≠ OsError.ok by simp [hok.1])]
  rw [hpi]
  refine ⟨hok.2.1, by simpa using hok.2.2.1, rfl, ?_⟩
  show (os_task_init N 0 0 0 16 k1).1.tasks.length = N + 1
  rw [hok.2.2.2.1]
  simp

theorem createIter_spec (N : Nat) (hN : 1 ≤ N) (args : Nat → Nat × Nat × Nat × Nat) :
    ∀ m, m ≤ N - 1 →
      (createIter N args m (postInit N)).state = OsState.tasksInitialized ∧
      (createIter N args m (postInit N)).size = 1 + m := by
  intro m
  induction m with
  | zero =>
    intro _
    exact ⟨(postInit_spec N hN).1, (postInit_spec N hN).2.1⟩
  | succ l ih =>
    intro hm
    obtain ⟨hst, hsz⟩ := ih (by omega)
    have hok := os_task_init_ok N (args l).1 (args l).2.1 (args l).2.2.1 (args l).2.2.2
      (createIter N args l (postInit N)) (Or.inr hst) (by omega)
    refine ⟨hok.2.1, ?_⟩
    show (os_task_init N (args l).1 (args l).2.1 (args l).2.2.1 (args l).2.2.2
      (createIter N args l (postInit N))).1.size = 1 + (l + 1)
    rw [hok.2.2.1, hsz]
    omega

/-! Preservation of the two status invariants by every operation. -/

theorem statusAt_set (tasks : List OsTask) (i : Nat) (t : OsTask) (j : Nat) :
    statusAt (tasks.set i t) j =
      if i = j ∧ i < tasks.length then t.status else statusAt tasks j := by
  unfold statusAt
  rw [getD_set]
  split_ifs <;> rfl

theorem waitAt_set (tasks : List OsTask) (i : Nat) (t : OsTask) (j : Nat) :
    waitAt (tasks.set i t) j =
      if i = j ∧ i < tasks.length then t.waitTicks else waitAt tasks j := by
  unfold waitAt
  rw [getD_set]
  split_ifs <;> rfl

theorem statusAt_sysTickDecrement (k : Kernel) (j : Nat) :
    statusAt (sysTickDecrement k).tasks j =
      if j < k.tasks.length ∧ 1 ≤ j ∧ j < k.size then
        (sysTickOne (k.tasks.getD j default)).status
      else statusAt k.tasks j := by
  unfold statusAt
  rw [sysTickDecrement_getD]
  split_ifs <;> rfl

theorem waitAt_sysTickDecrement (k : Kernel) (j : Nat) :
    waitAt (sysTickDecrement k).tasks j =
      if j < k.tasks.length ∧ 1 ≤ j ∧ j < k.size then
        (sysTickOne (k.tasks.getD j default)).waitTicks
      else waitAt k.tasks j := by
  unfold waitAt
  rw [sysTickDecrement_getD]
  split_ifs <;> rfl

theorem sysTickOne_status_cases (t : OsTask) :
    (sysTickOne t).status = t.status ∨ (sysTickOne t).status = OsTaskStatus.idle := by
  unfold sysTickOne
  by_cases hw : t.status = OsTaskStatus.waiting
  · rw [if_pos hw]
    by_cases hz : (t.waitTicks + (4294967296 - 1)) % 4294967296 = 0
    · rw [if_pos hz]
      right
      rfl
    · rw [if_neg hz]
      left
      rfl
  · rw [if_neg hw]
    left
    rfl

theorem sysTickOne_active_orig (t : OsTask)
    (h : (sysTickOne t).status = OsTaskStatus.active) :
    t.status = OsTaskStatus.active := by
  rcases sysTickOne_status_cases t with hc | hc
  · rw [hc] at h
    exact h
  · rw [hc] at h
    exact absurd h (by decide)

theorem sysTickOne_waiting_orig (t : OsTask)
    (h : (sysTickOne t).status = OsTaskStatus.waiting) :
    t.status = OsTaskStatus.waiting := by
  rcases sysTickOne_status_cases t with hc | hc
  · rw [hc] at h
    exact h
  · rw [hc] at h
    exact absurd h (by decide)

theorem statusAt_replicate_default (n i : Nat) :
    statusAt (List.replicate n (default : OsTask)) i = OsTaskStatus.uninit := by
  unfold statusAt
  rw [getD_replicate_default]
  rfl

theorem os_init_activeInv (N : Nat) (k : Kernel) (h : activeInv k) :
    activeInv (os_init N k).1 := by
  rcases os_init_shape N k with heq | ⟨-, -, -, hstat⟩
  · rw [heq]; exact h
  · intro i hi h1 hact
    rcases hstat i with hidle | hun
    · rw [hact] at hidle; exact absurd hidle (by decide)
    · rw [hact] at hun; exact absurd hun (by decide)

theorem os_task_init_activeInv (N hdl p base S : Nat) (k : Kernel) (h : activeInv k) :
    activeInv (os_task_init N hdl p base S k).1 := by
  by_cases hst : k.state = OsState.initialized ∨ k.state = OsState.tasksInitialized
  · by_cases hsz : k.size < N
    · have hok := os_task_init_ok N hdl p base S k hst hsz
      have htasks := os_task_init_tasks N hdl p base S k hst hsz
      intro i hi h1 hact
      rw [hok.2.2.2.2]
      rw [hok.2.2.1] at hi
      rw [htasks, statusAt_set] at hact
      by_cases hc : k.size = i ∧ k.size < k.tasks.length
      · rw [if_pos hc] at hact
        simp at hact
      · rw [if_neg hc] at hact
        by_cases hik : i = k.size
        · have hlen : k.tasks.length ≤ i := by omega
          rw [statusAt_of_le_length _ _ hlen] at hact
          exact absurd hact (by decide)
        · exact h i (by omega) h1 hact
    · rw [os_task_init_noMem N hdl p base S k hst (by omega)]
      exact h
  · rw [os_task_init_wrongState N hdl p base S k (by tauto)]
    exact h

theorem os_start_activeInv (cfgOk : Bool) (k : Kernel) (h : activeInv k) :
    activeInv (os_start cfgOk k).1 := by
  rcases os_start_shape cfgOk k with heq | ⟨heq, -⟩ <;> rw [heq]
  · exact h
  · intro i hi h1 hact
    exact h i hi h1 hact

theorem os_delay_mark_activeInv (t : Nat) (k : Kernel) (h : activeInv k) :
    activeInv (os_delay_mark t k) := by
  intro i hi h1 hact
  show i = k.currentTask
  have hi' : i < k.size := hi
  have hact' : statusAt (k.tasks.set k.currentTask
      { k.tasks.getD k.currentTask default with
        status := OsTaskStatus.waiting, waitTicks := t % 4294967296 }) i =
      OsTaskStatus.active := hact
  rw [statusAt_set] at hact'
  by_cases hc : k.currentTask = i ∧ k.currentTask < k.tasks.length
  · rw [if_pos hc] at hact'
    simp at hact'
  · rw [if_neg hc] at hact'
    exact h i hi' h1 hact'

theorem sysTickDecrement_activeInv (k : Kernel) (h : activeInv k) :
    activeInv (sysTickDecrement k) := by
  intro i hi h1 hact
  show i = k.currentTask
  have hi' : i < k.size := hi
  have hact' : statusAt (sysTickDecrement k).tasks i = OsTaskStatus.active := hact
  rw [statusAt_sysTickDecrement] at hact'
  by_cases hc : i < k.tasks.length ∧ 1 ≤ i ∧ i < k.size
  · rw [if_pos hc] at hact'
    exact h i hi' h1 (sysTickOne_active_orig _ hact')
  · rw [if_neg hc] at hact'
    exact h i hi' h1 hact'

theorem reachable_activeInv (N : Nat) (k : Kernel) (hr : Reachable N k) : activeInv k := by
  induction hr with
  | refl =>
    intro i hi h1 hact
    exact absurd hi (by simp [initialKernel])
  | step hr hstep ih =>
    cases hstep with
    | init heq => exact heq ▸ os_init_activeInv _ _ ih
    | create hdl p base S heq => exact heq ▸ os_task_init_activeInv _ _ _ _ _ _ ih
    | start cfg heq => exact heq ▸ os_start_activeInv _ _ ih
    | tick pd hstz heq =>
      exact reschedule_activeInv _ _ _ heq (sysTickDecrement_activeInv _ ih)
    | delay t hstz heq => exact heq ▸ os_delay_mark_activeInv _ _ ih
    | svc n pd hstz heq =>
      rcases os_svcall_handler_inv n _ _ pd heq with hre | hid
      · exact reschedule_activeInv _ _ _ hre ih
      · exact hid ▸ ih

/-! The `current_task` bound: its inductive strengthening and preservation. -/

theorem reschedule_c8_step (k0 k' : Kernel) (pd : Bool)
    (heq : reschedule k0 = some (k', pd)) (hst0 : k0.state = OsState.started) :
    k'.state ≠ OsState.initialized ∧
      (k'.state = OsState.tasksInitialized → k'.currentTask = 1) ∧
      (2 ≤ k'.size → k'.currentTask < k'.size) := by
  have hfr := reschedule_frame _ _ _ heq
  have hstate : k'.state = OsState.started := by rw [hfr.2.1, hst0]
  refine ⟨by rw [hstate]; decide, ?_, ?_⟩
  · intro hcon
    rw [hstate] at hcon
    exact absurd hcon (by decide)
  · intro h2
    rw [hfr.1] at h2 ⊢
    exact reschedule_current_lt _ _ _ heq (by omega)

theorem sysTick_c8_step (k0 k' : Kernel) (pd : Bool)
    (heq : SysTick_Handler k0 = some (k', pd)) (hst0 : k0.state = OsState.started) :
    k'.state ≠ OsState.initialized ∧
      (k'.state = OsState.tasksInitialized → k'.currentTask = 1) ∧
      (2 ≤ k'.size → k'.currentTask < k'.size) := by
  have hds : (sysTickDecrement k0).state = OsState.started := by
    rw [(sysTickDecrement_frame k0).2.2.1, hst0]
  exact reschedule_c8_step _ _ _ heq hds

theorem reachable_c8_inv (N : Nat) (k : Kernel) (hr : Reachable N k) :
    k.state ≠ OsState.initialized ∧
      (k.state = OsState.tasksInitialized → k.currentTask = 1) ∧
      (2 ≤ k.size → k.currentTask < k.size) := by
  induction hr with
  | refl =>
    refine ⟨?_, ?_, ?_⟩
    · show OsState.default ≠ OsState.initialized
      decide
    · intro hcon
      exact absurd (show OsState.default = OsState.tasksInitialized from hcon) (by decide)
    · intro hcon
      exact absurd (show 2 ≤ 0 from hcon) (by omega)
  | step hr hstep ih =>
    cases hstep with
    | init heq =>
      subst heq
      rcases os_init_shape N _ with heq2 | ⟨hstor, htl, hdef, -⟩
      · rw [heq2]; exact ih
      · refine ⟨?_, fun h => (htl h).1, ?_⟩
        · rcases hstor with h | h <;> rw [h] <;> decide
        · intro h2
          rcases hstor with h | h
          · have := (hdef h).2; omega
          · have := (htl h).2; omega
    | create hdl p base S heq =>
      subst heq
      rename_i k0
      by_cases hst : k0.state = OsState.initialized ∨ k0.state = OsState.tasksInitialized
      · by_cases hsz : k0.size < N
        · have hok := os_task_init_ok N hdl p base S k0 hst hsz
          have hcur1 : k0.currentTask = 1 := by
            rcases hst with h | h
            · exact absurd h ih.1
            · exact ih.2.1 h
          refine ⟨by rw [hok.2.1]; decide, fun _ => by rw [hok.2.2.2.2]; exact hcur1, ?_⟩
          intro h2
          rw [hok.2.2.1] at h2
          rw [hok.2.2.1, hok.2.2.2.2]
          by_cases hbig : 2 ≤ k0.size
          · have h3 := ih.2.2 hbig
            omega
          · omega
        · rw [os_task_init_noMem N hdl p base S k0 hst (by omega)]
          exact ih
      · rw [os_task_init_wrongState N hdl p base S k0 (by tauto)]
        exact ih
    | start cfg heq =>
      subst heq
      rename_i k0
      rcases os_start_shape cfg k0 with heq2 | ⟨heq2, hpre⟩
      · rw [heq2]; exact ih
      · rw [heq2]
        refine ⟨?_, ?_, ?_⟩
        · show OsState.started ≠ OsState.initialized
          decide
        · intro hcon
          exact absurd (show OsState.started = OsState.tasksInitialized from hcon)
            (by decide)
        · intro h2
          exact ih.2.2 h2
    | tick pd hstz heq =>
      exact sysTick_c8_step _ _ _ heq hstz
    | delay t hstz heq =>
      subst heq
      refine ⟨?_, ?_, fun h2 => ih.2.2 h2⟩
      · show _ ≠ _
        rw [show (os_delay_mark t _).state = OsState.started from hstz]
        decide
      · intro hcon
        rw [show (os_delay_mark t _).state = OsState.started from hstz] at hcon
        exact absurd hcon (by decide)
    | svc n pd hstz heq =>
      rcases os_svcall_handler_inv n _ _ pd heq with hre | hid
      · exact reschedule_c8_step _ _ _ hre hstz
      · exact hid ▸ ih

/-! The wait-counter invariant (positive delays only). -/

theorem os_init_waitInv (N : Nat) (k : Kernel) (h : waitInv k) :
    waitInv (os_init N k).1 := by
  rcases os_init_shape N k with heq | ⟨-, -, -, hstat⟩
  · rw [heq]; exact h
  · intro i hw
    rcases hstat i with hidle | hun
    · rw [hw] at hidle; exact absurd hidle (by decide)
    · rw [hw] at hun; exact absurd hun (by decide)

theorem os_task_init_waitInv (N hdl p base S : Nat) (k : Kernel) (h : waitInv k) :
    waitInv (os_task_init N hdl p base S k).1 := by
  by_cases hst : k.state = OsState.initialized ∨ k.state = OsState.tasksInitialized
  · by_cases hsz : k.size < N
    · have htasks := os_task_init_tasks N hdl p base S k hst hsz
      intro i hw
      rw [htasks, statusAt_set] at hw
      rw [htasks]
      unfold waitAt
      rw [getD_set]
      by_cases hc : k.size = i ∧ k.size < k.tasks.length
      · rw [if_pos hc] at hw
        simp at hw
      · rw [if_neg hc] at hw
        rw [if_neg hc]
        exact h i hw
    · rw [os_task_init_noMem N hdl p base S k hst (by omega)]
      exact h
  · rw [os_task_init_wrongState N hdl p base S k (by tauto)]
    exact h

theorem os_start_waitInv (cfgOk : Bool) (k : Kernel) (h : waitInv k) :
    waitInv (os_start cfgOk k).1 := by
  rcases os_start_shape cfgOk k with heq | ⟨heq, -⟩ <;> rw [heq]
  · exact h
  · intro i hw
    exact h i hw

theorem os_delay_mark_waitInv (t : Nat) (k : Kernel) (ht : t % 4294967296 ≠ 0)
    (h : waitInv k) : waitInv (os_delay_mark t k) := by
  intro i hw
  have hw' : statusAt (k.tasks.set k.currentTask
      { k.tasks.getD k.currentTask default with
        status := OsTaskStatus.waiting, waitTicks := t % 4294967296 }) i =
      OsTaskStatus.waiting := hw
  rw [statusAt_set] at hw'
  show 0 < waitAt (k.tasks.set k.currentTask _) i ∧
    waitAt (k.tasks.set k.currentTask _) i < 4294967296
  rw [waitAt_set]
  by_cases hc : k.currentTask = i ∧ k.currentTask < k.tasks.length
  · rw [if_pos hc]
    refine ⟨?_, ?_⟩
    · show 0 < t % 4294967296
      omega
    · show t % 4294967296 < 4294967296
      omega
  · rw [if_neg hc]
    rw [if_neg hc] at hw'
    exact h i hw'

theorem sysTickDecrement_waitInv (k : Kernel) (h : waitInv k) :
    waitInv (sysTickDecrement k) := by
  intro i hw
  have hw' : statusAt (sysTickDecrement k).tasks i = OsTaskStatus.waiting := hw
  rw [statusAt_sysTickDecrement] at hw'
  show 0 < waitAt (sysTickDecrement k).tasks i ∧
    waitAt (sysTickDecrement k).tasks i < 4294967296
  rw [waitAt_sysTickDecrement]
  by_cases hc : i < k.tasks.length ∧ 1 ≤ i ∧ i < k.size
  · rw [if_pos hc] at hw'
    rw [if_pos hc]
    have horig := sysTickOne_waiting_orig _ hw'
    obtain ⟨h1, h2⟩ := h i horig
    unfold waitAt at h1 h2
    have hspec := sysTickOne_spec (k.tasks.getD i default) horig h1 h2
    rw [hspec.1]
    have hgt1 : 1 < (k.tasks.getD i default).waitTicks := hspec.2.2.mp hw'
    constructor <;> omega
  · rw [if_neg hc] at hw'
    rw [if_neg hc]
    exact h i hw'

theorem reschedule_waitInv (k k' : Kernel) (pd : Bool)
    (h : reschedule k = some (k', pd)) (hW : waitInv k) : waitInv k' := by
  intro i hw
  have horig : statusAt k.tasks i = OsTaskStatus.waiting := by
    by_contra hcon
    exact reschedule_not_waiting k k' pd h i hcon hw
  have := hW i horig
  rw [show waitAt k'.tasks i = waitAt k.tasks i from reschedule_waitAt k k' pd h i]
  exact this

theorem reachable_pos_waitInv (N : Nat) (k : Kernel) (hr : ReachablePos N k) :
    waitInv k := by
  induction hr with
  | refl =>
    intro i hw
    rw [show statusAt (initialKernel N).tasks i = OsTaskStatus.uninit from
      statusAt_replicate_default _ _] at hw
    exact absurd hw (by decide)
  | step hr hstep ih =>
    cases hstep with
    | init heq => exact heq ▸ os_init_waitInv _ _ ih
    | create hdl p base S heq => exact heq ▸ os_task_init_waitInv _ _ _ _ _ _ ih
    | start cfg heq => exact heq ▸ os_start_waitInv _ _ ih
    | tick pd hstz heq =>
      exact reschedule_waitInv _ _ _ heq (sysTickDecrement_waitInv _ ih)
    | delay t ht hstz heq => exact heq ▸ os_delay_mark_waitInv _ _ ht ih
    | svc n pd hstz heq =>
      rcases os_svcall_handler_inv n _ _ pd heq with hre | hid
      · exact reschedule_waitInv _ _ _ hre ih
      · exact hid ▸ ih

/-! Iterated SysTick periods: the delay-counter evolution. -/

theorem tickIter_succ (k : Kernel) (a : Nat) :
    tickIter k (a + 1) =
      match SysTick_Handler k with
      | none => none
      | some (k', _) => tickIter k' a := rfl

theorem tickIter_add (k : Kernel) (a b : Nat) :
    tickIter k (a + b) =
      match tickIter k a with
      | none => none
      | some k1 => tickIter k1 b := by
  induction a generalizing k with
  | zero =>
    rw [Nat.zero_add]
    rfl
  | succ a ih =>
    have h1 : a + 1 + b = (a + b) + 1 := by omega
    rw [h1, tickIter_succ, tickIter_succ]
    cases hh : SysTick_Handler k with
    | none => rfl
    | some pr =>
      obtain ⟨k1, pd⟩ := pr
      show tickIter k1 (a + b) =
        (match tickIter k1 a with | none => none | some k2 => tickIter k2 b)
      exact ih k1

theorem tickIter_waiting_aux :
    ∀ (m : Nat) (k : Kernel) (j n : Nat), 1 ≤ j → j < k.size →
      k.size ≤ k.tasks.length →
      statusAt k.tasks j = OsTaskStatus.waiting → waitAt k.tasks j = n →
      m < n → n < 4294967296 →
      ∀ km, tickIter k m = some km →
        statusAt km.tasks j = OsTaskStatus.waiting ∧ waitAt km.tasks j = n - m ∧
          j < km.size ∧ km.size ≤ km.tasks.length := by
  intro m
  induction m with
  | zero =>
    intro k j n h1 h2 h3 h4 h5 h6 h7 km hkm
    have hk : k = km := by simpa [tickIter] using hkm
    subst hk
    exact ⟨h4, h5, h2, h3⟩
  | succ l ih =>
    intro k j n h1 h2 h3 h4 h5 h6 h7 km hkm
    rw [tickIter_succ] at hkm
    cases hh : SysTick_Handler k with
    | none =>
      rw [hh] at hkm
      exact absurd hkm (by simp)
    | some pr =>
      obtain ⟨k1, pd⟩ := pr
      rw [hh] at hkm
      have hdf := sysTickDecrement_frame k
      have hjlen : j < k.tasks.length := by omega
      have hwtick : (k.tasks.getD j default).waitTicks = waitAt k.tasks j := rfl
      have hspec := sysTickOne_spec (k.tasks.getD j default) h4
        (by rw [hwtick, h5]; omega) (by rw [hwtick, h5]; omega)
      have hst1 : statusAt (sysTickDecrement k).tasks j = OsTaskStatus.waiting := by
        rw [statusAt_sysTickDecrement, if_pos ⟨hjlen, h1, h2⟩]
        exact hspec.2.2.mpr (by rw [hwtick, h5]; omega)
      have hwt1 : waitAt (sysTickDecrement k).tasks j = n - 1 := by
        rw [waitAt_sysTickDecrement, if_pos ⟨hjlen, h1, h2⟩, hspec.1, hwtick, h5]
      have hre : reschedule (sysTickDecrement k) = some (k1, pd) := hh
      have hfr := reschedule_frame _ _ _ hre
      have hst2 : statusAt k1.tasks j = OsTaskStatus.waiting :=
        reschedule_preserves_waiting _ _ _ hre j h1 hst1
      have hwt2 : waitAt k1.tasks j = n - 1 := by
        rw [reschedule_waitAt _ _ _ hre j, hwt1]
      have hsz1 : j < k1.size := by
        rw [hfr.1, hdf.1]
        exact h2
      have hlen1 : k1.size ≤ k1.tasks.length := by
        rw [hfr.1, hfr.2.2, hdf.1, hdf.2.2.2]
        exact h3
      have hres := ih k1 j (n - 1) h1 hsz1 hlen1 hst2 hwt2 (by omega) (by omega) km hkm
      refine ⟨hres.1, ?_, hres.2.2⟩
      rw [hres.2.1]
      omega

/-! Concrete reachability chains shared by the witnesses and
counterexamples below. -/

theorem reach_exampleStarted : Reachable 2 exampleStarted := by
  have h1 : Reachable 2 (postInit 2) :=
    Reachable.step Reachable.refl (Step.init rfl)
  have h2 : Reachable 2 (os_task_init 2 7 5 100 16 (postInit 2)).1 :=
    Reachable.step h1 (Step.create 7 5 100 16 rfl)
  exact Reachable.step h2 (Step.start true rfl)

theorem reach_exampleTick1 : Reachable 2 exampleTick1 :=
  Reachable.step reach_exampleStarted (Step.tick false (by decide) (by decide))

theorem reach_exampleDelay0 : Reachable 2 exampleDelay0 :=
  Reachable.step reach_exampleTick1 (Step.delay 0 (by decide) rfl)

theorem reach_exampleDelay0Tick : Reachable 2 exampleDelay0Tick := by
  have h5 : Reachable 2 exampleDelay0Svc :=
    Reachable.step reach_exampleDelay0 (Step.svc 1 true (by decide) (by decide))
  exact Reachable.step h5 (Step.tick false (by decide) (by decide))

theorem reachPos_exampleDelay5 : ReachablePos 2 exampleDelay5 := by
  have h1 : ReachablePos 2 (postInit 2) :=
    ReachablePos.step ReachablePos.refl (StepPos.init rfl)
  have h2 : ReachablePos 2 (os_task_init 2 7 5 100 16 (postInit 2)).1 :=
    ReachablePos.step h1 (StepPos.create 7 5 100 16 rfl)
  have h3 : ReachablePos 2 exampleStarted :=
    ReachablePos.step h2 (StepPos.start true rfl)
  have h4 : ReachablePos 2 exampleTick1 :=
    ReachablePos.step h3 (StepPos.tick false (by decide) (by decide))
  exact ReachablePos.step h4 (StepPos.delay 5 (by decide) (by decide) rfl)

/-! The ten claims. -/

/-- Claim C1 (confirmed): if exactly the user slots in `R` are ready (status
`IDLE`, or the currently running slot `ACTIVE`), no other user slot is
`ACTIVE`, and nothing blocks in between, then `|R|` consecutive scheduler
invocations terminate and select every ready slot exactly once — in table
order starting just after the previously running slot (strictly increasing
scan distance `dist`, which wraps from `size-1` to 1), never selecting slot
0 — before any task repeats. -/
theorem c1_round_robin (R : Finset Nat) (k : Kernel) (hR : RoundState R k)
    (hne : R.Nonempty) :
    (selTrace k R.card).isSome = true ∧
    (selTraceD k R.card).length = R.card ∧
    (selTraceD k R.card).Nodup ∧
    (selTraceD k R.card).toFinset = R ∧
    List.Pairwise
      (fun a b => dist k.size k.currentTask a < dist k.size k.currentTask b)
      (selTraceD k R.card) ∧
    (∀ x ∈ selTraceD k R.card, 1 ≤ x ∧ x < k.size) := by
  obtain ⟨L, htr, hlen, hmem, hpw, hlast⟩ := selTrace_round R R.card k hR (le_refl _)
  have hD : selTraceD k R.card = L := by
    rw [selTraceD, htr]
    rfl
  have hnodup : L.Nodup := by
    refine hpw.imp ?_
    intro a b hab heq
    rw [heq] at hab
    omega
  have htofin : L.toFinset = R := by
    apply Finset.eq_of_subset_of_card_le
    · intro x hx
      exact hmem x (List.mem_toFinset.mp hx)
    · rw [List.toFinset_card_of_nodup hnodup, hlen]
  obtain ⟨hs, hc, hlenk, hready, hact, hbound⟩ := hR
  rw [hD]
  refine ⟨by rw [htr]; rfl, hlen, hnodup, htofin, hpw, ?_⟩
  intro x hx
  exact hbound x (hmem x hx)

/-- Witness for C1: the concrete scenario `exampleRound` (three ready user
tasks, task 1 running): the three invocations select `[2, 3, 1]`. -/
theorem c1_round_robin_witness :
    (selTrace exampleRound ({1, 2, 3} : Finset Nat).card).isSome = true ∧
    (selTraceD exampleRound ({1, 2, 3} : Finset Nat).card).length =
      ({1, 2, 3} : Finset Nat).card ∧
    (selTraceD exampleRound ({1, 2, 3} : Finset Nat).card).Nodup ∧
    (selTraceD exampleRound ({1, 2, 3} : Finset Nat).card).toFinset =
      ({1, 2, 3} : Finset Nat) ∧
    List.Pairwise
      (fun a b => dist exampleRound.size exampleRound.currentTask a <
        dist exampleRound.size exampleRound.currentTask b)
      (selTraceD exampleRound ({1, 2, 3} : Finset Nat).card) ∧
    (∀ x ∈ selTraceD exampleRound ({1, 2, 3} : Finset Nat).card,
      1 ≤ x ∧ x < exampleRound.size) :=
  c1_round_robin {1, 2, 3} exampleRound (by decide) (by decide)

/-- Claim C2 (confirmed): every successful `create_task` with a stack region
of word address `base` and size `S = stack.length ≥ 16` words stores stack
pointer `base + S - 16` in the new TCB, and writes the saved slots
bit-exact: word `S-1` (xPSR) = `0x01000000`, word `S-2` (PC) = the handler
address, word `S-3` (LR) = the `task_finished` address, word `S-8` (R0) =
the params word. -/
theorem c2_create_task_context (N hdl p base tf : Nat) (stack : List Nat) (k : Kernel)
    (hst : k.state = OsState.tasksInitialized) (hsz : k.size < N)
    (hlen : k.size < k.tasks.length) (hS : 16 ≤ stack.length) :
    (os_task_init N hdl p base stack.length k).2 = OsError.ok ∧
    ((os_task_init N hdl p base stack.length k).1.tasks.getD k.size default).sp =
      base + stack.length - 16 ∧
    (os_task_init_stack hdl p tf stack).getD (stack.length - 1) 0 = 0x01000000 ∧
    (os_task_init_stack hdl p tf stack).getD (stack.length - 2) 0 = hdl ∧
    (os_task_init_stack hdl p tf stack).getD (stack.length - 3) 0 = tf ∧
    (os_task_init_stack hdl p tf stack).getD (stack.length - 8) 0 = p := by
  have hok := os_task_init_ok N hdl p base stack.length k (Or.inr hst) hsz
  have htasks := os_task_init_tasks N hdl p base stack.length k (Or.inr hst) hsz
  refine ⟨hok.1, ?_, ?_, ?_, ?_, ?_⟩
  · rw [htasks, getD_set, if_pos ⟨rfl, hlen⟩]
  · unfold os_task_init_stack
    rw [getD_set, if_neg (by simp only [List.length_set]; omega),
        getD_set, if_neg (by simp only [List.length_set]; omega),
        getD_set, if_neg (by simp only [List.length_set]; omega),
        getD_set, if_pos ⟨rfl, by omega⟩]
  · unfold os_task_init_stack
    rw [getD_set, if_neg (by simp only [List.length_set]; omega),
        getD_set, if_neg (by simp only [List.length_set]; omega),
        getD_set, if_pos ⟨rfl, by simp only [List.length_set]; omega⟩]
  · unfold os_task_init_stack
    rw [getD_set, if_neg (by simp only [List.length_set]; omega),
        getD_set, if_pos ⟨rfl, by simp only [List.length_set]; omega⟩]
  · unfold os_task_init_stack
    rw [getD_set, if_pos ⟨rfl, by simp only [List.length_set]; omega⟩]

/-- Witness for C2 at a concrete successful call. -/
theorem c2_create_task_context_witness :
    (os_task_init 2 7 5 100 (List.replicate 16 3 : List Nat).length (postInit 2)).2 =
      OsError.ok ∧
    ((os_task_init 2 7 5 100 (List.replicate 16 3 : List Nat).length
      (postInit 2)).1.tasks.getD (postInit 2).size default).sp =
      100 + (List.replicate 16 3 : List Nat).length - 16 ∧
    (os_task_init_stack 7 5 9 (List.replicate 16 3)).getD
      ((List.replicate 16 3 : List Nat).length - 1) 0 = 0x01000000 ∧
    (os_task_init_stack 7 5 9 (List.replicate 16 3)).getD
      ((List.replicate 16 3 : List Nat).length - 2) 0 = 7 ∧
    (os_task_init_stack 7 5 9 (List.replicate 16 3)).getD
      ((List.replicate 16 3 : List Nat).length - 3) 0 = 9 ∧
    (os_task_init_stack 7 5 9 (List.replicate 16 3)).getD
      ((List.replicate 16 3 : List Nat).length - 8) 0 = 5 :=
  c2_create_task_context 2 7 5 100 9 (List.replicate 16 3) (postInit 2) (by decide)
    (by decide) (by decide) (by decide)

/-- Claim C3 counterexample: with `OS_CONFIG_MAX_TASKS = 3` (capacity 4),
starting from the post-init state, the first two `create_task` calls succeed
but the third already returns `NO_MEM` — refuting the claimed
`capacity = 4` successes. -/
theorem c3_counterexample :
    (os_task_init 3 0 0 0 16 (createIter 3 (fun _ => (0, 0, 0, 16)) 0 (postInit 3))).2 =
      OsError.ok ∧
    (os_task_init 3 0 0 0 16 (createIter 3 (fun _ => (0, 0, 0, 16)) 1 (postInit 3))).2 =
      OsError.ok ∧
    (os_task_init 3 0 0 0 16 (createIter 3 (fun _ => (0, 0, 0, 16)) 2 (postInit 3))).2 =
      OsError.noMem :=
  ⟨by decide, by decide, by decide⟩

/-- Claim C3 (corrected): starting from the post-init state (idle task in
slot 0, `size = 1`), exactly `OS_CONFIG_MAX_TASKS - 1` (that is,
`capacity - 2`) `create_task` calls succeed, whatever their arguments; the
next call returns `NO_MEM` and leaves the kernel — `size` and the whole task
table — unchanged. -/
theorem c3_capacity (N : Nat) (hN : 1 ≤ N) (args : Nat → Nat × Nat × Nat × Nat)
    (hdl p base S : Nat) :
    (∀ m, m < N - 1 →
      (os_task_init N (args m).1 (args m).2.1 (args m).2.2.1 (args m).2.2.2
        (createIter N args m (postInit N))).2 = OsError.ok) ∧
    os_task_init N hdl p base S (createIter N args (N - 1) (postInit N)) =
      (createIter N args (N - 1) (postInit N), OsError.noMem) := by
  constructor
  · intro m hm
    obtain ⟨hst, hsz⟩ := createIter_spec N hN args m (by omega)
    exact (os_task_init_ok N (args m).1 (args m).2.1 (args m).2.2.1 (args m).2.2.2
      (createIter N args m (postInit N)) (Or.inr hst) (by omega)).1
  · obtain ⟨hst, hsz⟩ := createIter_spec N hN args (N - 1) (le_refl _)
    exact os_task_init_noMem N hdl p base S _ (Or.inr hst) (by omega)

/-- Witness for C3 (amended) at `OS_CONFIG_MAX_TASKS = 4`. -/
theorem c3_capacity_witness :
    os_task_init 4 0 0 0 16 (createIter 4 (fun _ => (0, 0, 0, 16)) 3 (postInit 4)) =
      (createIter 4 (fun _ => (0, 0, 0, 16)) 3 (postInit 4), OsError.noMem) :=
  (c3_capacity 4 (by decide) (fun _ => (0, 0, 0, 16)) 0 0 0 16).2

/-- Claim C4 (confirmed): a terminating scheduler invocation raises PendSV
iff the selected next task's slot differs from the slot current at entry
(`os_curr_task != os_next_task` on `&tasks[i]` pointers is exactly slot
inequality). -/
theorem c4_pendsv_iff_switch (k k' : Kernel) (pd : Bool)
    (h : reschedule k = some (k', pd)) :
    pd = true ↔ k'.currentTask ≠ k.currentTask := by
  rcases reschedule_inv k k' pd h with ⟨j, -, -, hk, hpd⟩ | ⟨j, -, -, -, hk, hpd⟩ |
    ⟨-, -, hk, hpd⟩ <;> subst hk <;> subst hpd
  · show decide (k.currentTask ≠ j) = true ↔ j ≠ k.currentTask
    simp only [decide_eq_true_eq]
    exact ne_comm
  · show decide (k.currentTask ≠ j) = true ↔ j ≠ k.currentTask
    simp only [decide_eq_true_eq]
    exact ne_comm
  · show decide (k.currentTask ≠ 0) = true ↔ (0 : Nat) ≠ k.currentTask
    simp only [decide_eq_true_eq]
    exact ne_comm

/-- Witness for C4: the first invocation after `exampleStarted` re-selects
the same slot 1 and does not raise PendSV. -/
theorem c4_pendsv_iff_switch_witness :
    false = true ↔ exampleTick1.currentTask ≠ exampleStarted.currentTask :=
  c4_pendsv_iff_switch exampleStarted exampleTick1 false (by decide)

/-- Claim C5 counterexample: `os_delay(0)` is reachable and leaves the
calling task `WAITING` with `wait_ticks = 0`, refuting the claimed
invariant. -/
theorem c5_counterexample :
    Reachable 2 exampleDelay0 ∧
      statusAt exampleDelay0.tasks 1 = OsTaskStatus.waiting ∧
      waitAt exampleDelay0.tasks 1 = 0 :=
  ⟨reach_exampleDelay0, by decide, by decide⟩

/-- Claim C5 (corrected): provided every `os_delay` call passes a tick count
that is nonzero as a `uint32_t`, in every reachable state a `WAITING` slot
has `wait_ticks > 0`, the SysTick decrement of such a slot is by exactly one
(no underflow, no wrap), and it flips the status to `IDLE` exactly on
reaching zero. -/
theorem c5_wait_ticks_pos (N : Nat) (k : Kernel) (hr : ReachablePos N k) (i : Nat)
    (hw : statusAt k.tasks i = OsTaskStatus.waiting) :
    0 < waitAt k.tasks i ∧
      (sysTickOne (k.tasks.getD i default)).waitTicks = waitAt k.tasks i - 1 ∧
      ((sysTickOne (k.tasks.getD i default)).status = OsTaskStatus.idle ↔
        waitAt k.tasks i = 1) := by
  obtain ⟨h1, h2⟩ := reachable_pos_waitInv N k hr i hw
  have hspec := sysTickOne_spec (k.tasks.getD i default) hw h1 h2
  exact ⟨h1, hspec.1, hspec.2.1⟩

/-- Witness for C5 (amended) at a reachable waiting state. -/
theorem c5_wait_ticks_pos_witness :
    0 < waitAt exampleDelay5.tasks 1 ∧
      (sysTickOne (exampleDelay5.tasks.getD 1 default)).waitTicks =
        waitAt exampleDelay5.tasks 1 - 1 ∧
      ((sysTickOne (exampleDelay5.tasks.getD 1 default)).status = OsTaskStatus.idle ↔
        waitAt exampleDelay5.tasks 1 = 1) :=
  c5_wait_ticks_pos 2 exampleDelay5 reachPos_exampleDelay5 1 (by decide)

/-- Claim C6 counterexample: after a reachable `os_delay(0)` (marking, then
its `svc`), the task is still `WAITING` at the call (tick 0) and still
`WAITING` after a further tick, now with `wait_ticks = 2^32 - 1` — the
decrement wrapped, refuting the claim's `N = 0` instance. -/
theorem c6_counterexample :
    Reachable 2 exampleDelay0Tick ∧
      statusAt exampleDelay0Svc.tasks 1 = OsTaskStatus.waiting ∧
      statusAt exampleDelay0Tick.tasks 1 = OsTaskStatus.waiting ∧
      waitAt exampleDelay0Tick.tasks 1 = 4294967295 :=
  ⟨reach_exampleDelay0Tick, by decide, by decide, by decide⟩

/-- Claim C6 (corrected): for every `n` with `1 ≤ n < 2^32`, a task slot
`j` that is `WAITING` with `wait_ticks = n` (as `os_delay(n)` leaves it)
stays `WAITING` with counter `n - m` through the end of tick `m` for every
`m < n`; the decrement phase of tick `n` flips it to `IDLE`; and after tick
`n` completes the slot is no longer `WAITING`. -/
theorem c6_delay_boundary (k : Kernel) (j n : Nat) (hj1 : 1 ≤ j) (hj2 : j < k.size)
    (hjl : k.size ≤ k.tasks.length) (hw : statusAt k.tasks j = OsTaskStatus.waiting)
    (hn : waitAt k.tasks j = n) (hn1 : 1 ≤ n) (hn2 : n < 4294967296) :
    (∀ m, m < n → ∀ km, tickIter k m = some km →
      statusAt km.tasks j = OsTaskStatus.waiting ∧ waitAt km.tasks j = n - m) ∧
    (∀ km, tickIter k (n - 1) = some km →
      statusAt (sysTickDecrement km).tasks j = OsTaskStatus.idle) ∧
    (∀ kn, tickIter k n = some kn → statusAt kn.tasks j ≠ OsTaskStatus.waiting) := by
  have hpart2 : ∀ km, tickIter k (n - 1) = some km →
      statusAt (sysTickDecrement km).tasks j = OsTaskStatus.idle := by
    intro km hkm
    have haux := tickIter_waiting_aux (n - 1) k j n hj1 hj2 hjl hw hn (by omega) hn2
      km hkm
    have hwt : waitAt km.tasks j = 1 := by
      rw [haux.2.1]
      omega
    have hwteq : (km.tasks.getD j default).waitTicks = waitAt km.tasks j := rfl
    have hjlen : j < km.tasks.length := by
      have h1 := haux.2.2.1
      have h2 := haux.2.2.2
      omega
    have hspec := sysTickOne_spec (km.tasks.getD j default) haux.1
      (by rw [hwteq, hwt]; omega) (by rw [hwteq, hwt]; omega)
    rw [statusAt_sysTickDecrement, if_pos ⟨hjlen, hj1, haux.2.2.1⟩]
    exact hspec.2.1.mpr (by rw [hwteq, hwt])
  refine ⟨?_, hpart2, ?_⟩
  · intro m hm km hkm
    have haux := tickIter_waiting_aux m k j n hj1 hj2 hjl hw hn hm hn2 km hkm
    exact ⟨haux.1, haux.2.1⟩
  · intro kn hkn
    have hb := tickIter_add k (n - 1) 1
    rw [show n - 1 + 1 = n by omega] at hb
    rw [hb] at hkn
    cases hmid : tickIter k (n - 1) with
    | none =>
      rw [hmid] at hkn
      exact absurd hkn (by simp)
    | some km =>
      rw [hmid] at hkn
      have hkn2 : (match SysTick_Handler km with
          | none => none
          | some (k', _) => tickIter k' 0) = some kn := hkn
      cases hh : SysTick_Handler km with
      | none =>
        rw [hh] at hkn2
        exact absurd hkn2 (by simp)
      | some pr =>
        obtain ⟨kn', pd⟩ := pr
        rw [hh] at hkn2
        have hkn' : kn' = kn := by simpa [tickIter] using hkn2
        subst hkn'
        have hidle := hpart2 km hmid
        exact reschedule_not_waiting _ _ _ hh j (by rw [hidle]; decide)

/-- Witness for C6 (amended): the delayed task of `exampleDelay5` is still
waiting, with counter 3, after two full ticks. -/
theorem c6_delay_boundary_witness :
    statusAt exampleDelay5Tick2.tasks 1 = OsTaskStatus.waiting ∧
      waitAt exampleDelay5Tick2.tasks 1 = 5 - 2 :=
  (c6_delay_boundary exampleDelay5 1 5 (by decide) (by decide) (by decide) (by decide)
    (by decide) (by decide) (by decide)).1 2 (by decide) exampleDelay5Tick2 (by decide)

/-- Claim C7 counterexample: the state right after `os_start` is reachable,
is in the `STARTED` state, and has no `ACTIVE` TCB at all — "exactly one
Active" fails there. -/
theorem c7_counterexample :
    Reachable 2 exampleStarted ∧ exampleStarted.state = OsState.started ∧
      activeCount exampleStarted = 0 :=
  ⟨reach_exampleStarted, by decide, by decide⟩

/-- Claim C7 (corrected): in every reachable state at most one TCB among the
user slots `1..size-1` is `ACTIVE`, and any such TCB is the one at index
`current_task`.  ("Exactly one" fails right after `os_start`, before the
first scheduler invocation, and the idle slot 0 additionally keeps its
`ACTIVE` mark once it has ever been selected.) -/
theorem c7_active_at_current (N : Nat) (k : Kernel) (hr : Reachable N k) (i : Nat)
    (hi : i < k.size) (h1 : 1 ≤ i)
    (hact : statusAt k.tasks i = OsTaskStatus.active) : i = k.currentTask :=
  reachable_activeInv N k hr i hi h1 hact

/-- Witness for C7 (amended) at a reachable state with the user task
active. -/
theorem c7_active_at_current_witness : (1 : Nat) = exampleTick1.currentTask :=
  c7_active_at_current 2 exampleTick1 reach_exampleTick1 1 (by decide) (by decide)
    (by decide)

/-- Claim C8 counterexample: right after `os_init` (a reachable state),
`current_task = 1 = size`, so `current_task < size` fails. -/
theorem c8_counterexample :
    Reachable 2 (postInit 2) ∧ (postInit 2).currentTask = 1 ∧ (postInit 2).size = 1 ∧
      ¬((postInit 2).currentTask < (postInit 2).size) :=
  ⟨Reachable.step Reachable.refl (Step.init rfl), by decide, by decide, by decide⟩

/-- Claim C8 (corrected): in every reachable state with at least one user
task registered (`2 ≤ size`), `current_task < size` holds.  (Before that,
`os_init` leaves `current_task = 1 = size`, see the counterexample.) -/
theorem c8_current_lt_size (N : Nat) (k : Kernel) (hr : Reachable N k)
    (hs : 2 ≤ k.size) : k.currentTask < k.size :=
  (reachable_c8_inv N k hr).2.2 hs

/-- Witness for C8 (amended). -/
theorem c8_current_lt_size_witness : exampleTick1.currentTask < exampleTick1.size :=
  c8_current_lt_size 2 exampleTick1 reach_exampleTick1 (by decide)

/-- Claim C9 counterexample: a successful `create_task` over a caller region
whose words are 7 leaves the untouched register slot `S-4` (R12) equal to
7, not 0. -/
theorem c9_counterexample :
    (os_task_init 2 7 5 100 16 (postInit 2)).2 = OsError.ok ∧
      (os_task_init_stack 7 5 9 (List.replicate 16 7)).getD (16 - 4) 0 = 7 ∧
      (os_task_init_stack 7 5 9 (List.replicate 16 7)).getD (16 - 4) 0 ≠ 0 :=
  ⟨by decide, by decide, by decide⟩

/-- Claim C9 (corrected): in the production configuration every word of the
stack region other than the four written slots (`S-1`, `S-2`, `S-3`, `S-8`)
is left unchanged by `create_task` — hence it is zero exactly when the
caller-supplied region already held zero there (as with a zero-initialized
static region), not unconditionally. -/
theorem c9_stack_slots_unchanged (hdl p tf : Nat) (stack : List Nat) (j : Nat)
    (hj : j < stack.length)
    (h1 : j ≠ stack.length - 1) (h2 : j ≠ stack.length - 2)
    (h3 : j ≠ stack.length - 3) (h8 : j ≠ stack.length - 8) :
    (os_task_init_stack hdl p tf stack).getD j 0 = stack.getD j 0 := by
  unfold os_task_init_stack
  rw [getD_set, if_neg (by simp only [List.length_set]; omega),
      getD_set, if_neg (by simp only [List.length_set]; omega),
      getD_set, if_neg (by simp only [List.length_set]; omega),
      getD_set, if_neg (by omega)]

/-- Witness for C9 (amended). -/
theorem c9_stack_slots_unchanged_witness :
    (os_task_init_stack 7 5 9 (List.replicate 16 3)).getD 4 0 =
      (List.replicate 16 3 : List Nat).getD 4 0 :=
  c9_stack_slots_unchanged 7 5 9 (List.replicate 16 3) 4 (by decide) (by decide)
    (by decide) (by decide) (by decide)

/-- Claim C10 (confirmed): whenever the initial check of `reschedule`
concludes a ready task exists — the current non-idle slot was `ACTIVE` (and
is marked idle before the loop), or some slot in `1..size-1` is `IDLE` —
and `2 ≤ size`, the forward round-robin scan terminates at an idle slot
within at most `size - 1` iterations (the scan fuel), so the invocation
returns a result. -/
theorem c10_scan_terminates (k : Kernel) (hs : 2 ≤ k.size)
    (hc : k.currentTask < k.size) (hlen : k.size ≤ k.tasks.length)
    (hready : (k.currentTask ≠ 0 ∧ statusAt k.tasks k.currentTask = OsTaskStatus.active) ∨
      (∃ i, 1 ≤ i ∧ i < k.size ∧ statusAt k.tasks i = OsTaskStatus.idle)) :
    (reschedule k).isSome = true := by
  by_cases hA : k.currentTask ≠ 0 ∧ statusAt k.tasks k.currentTask = OsTaskStatus.active
  · obtain ⟨hA1, hA2⟩ := hA
    have hex : ∃ i, 1 ≤ i ∧ i < k.size ∧
        statusAt (setStatus k.tasks k.currentTask OsTaskStatus.idle) i =
          OsTaskStatus.idle := by
      refine ⟨k.currentTask, by omega, hc, ?_⟩
      rw [statusAt_setStatus, if_pos ⟨rfl, by omega⟩]
    obtain ⟨j, hscan, -⟩ := scanFrom_exists _ k.size hs k.currentTask hc hex
    rw [reschedule_eq_of_active k ⟨hA1, hA2⟩ j hscan]
    rfl
  · rcases hready with hcon | hex
    · exact absurd hcon hA
    · have hany : anyIdle k.tasks k.size = true := (anyIdle_eq_true_iff _ _).mpr hex
      obtain ⟨j, hscan, -⟩ := scanFrom_exists k.tasks k.size hs k.currentTask hc hex
      rw [reschedule_eq_of_scan k hA hany j hscan]
      rfl

/-- Witness for C10 at the concrete ready scenario. -/
theorem c10_scan_terminates_witness : (reschedule exampleRound).isSome = true :=
  c10_scan_terminates exampleRound (by decide) (by decide) (by decide)
    (Or.inl ⟨by decide, by decide⟩)

end Os
